import Mathlib

/-!
# SSOT directive rewriter (`main.go`)

A shallow embedding of the single source file of the `ssot` tool: the
per-extension directive regex (`lineMatchRegex`), the line rewriter
(`maybeUpdateLine`), the regex decoration helper (`decorateLineRegex`), the
file updater (`maybeUpdateFile`) and the loop of `main` over the files.

Conventions of the embedding.

* A Go `string` / `[]byte` holding text is a `List Char` (`Str`); the model
  covers valid UTF-8 text, where byte offsets and rune offsets describe the
  same positions.
* The Go standard library functions the program calls (`regexp`, `strings`,
  `bufio.Scanner`, `path/filepath`, `bytes`) are modelled by executable
  definitions that follow the library's documented behaviour.  The regular
  expression model covers a fragment of the syntax accepted by
  `regexp.Compile`: literals, escaped punctuation, `\a \f \n \r \t \v`, `.`,
  bracket expressions, the Perl classes `\d \D \s \S \w \W`, capturing and
  non-capturing groups, alternation, `* + ?` and their lazy forms, and
  `^ $ \A \z \b \B`.  A pattern outside the fragment (flags, named groups,
  counted repetition, octal, hexadecimal, POSIX and Unicode classes, `\Q`, and
  `*` or `+` over a pattern that can match the empty text) is reported as
  `Regexp.Error.unsupported`.  Letters and digits outside ASCII are not
  recognised as such in replacement templates.
* A Go run-time panic (index out of range) is an explicit outcome.
* `slog` output is not part of the model.
-/

namespace SsotTool

/-- Go text: a list of characters. -/
abbrev Str := List Char

/-! ## `regexp`: syntax -/

namespace Regexp

/-- Reasons for which `regexp.Compile` fails (`regexp/syntax.ErrorCode`), and
`unsupported` for a pattern outside the modelled fragment. -/
inductive Error where
  | missingBracket
  | missingParen
  | unexpectedParen
  | missingRepeatArgument
  | invalidRepeatOp
  | invalidEscape
  | trailingBackslash
  | invalidCharRange
  | unsupported
  deriving DecidableEq

/-- One member of a bracket expression: a range `lo-hi` (a single character is
`lo = hi`) or one of the Perl classes `\d \D \s \S \w \W` named by its letter. -/
inductive ClassItem where
  | range (lo hi : Char)
  | perl (c : Char)
  deriving DecidableEq

/-- Abstract syntax of the modelled fragment. `cap n r` is the `n`-th capturing
group; the flag of `star`, `plus` and `opt` is `true` for the greedy form. -/
inductive Re where
  | emp
  | lit (c : Char)
  | cls (neg : Bool) (items : List ClassItem)
  | dot
  | bot
  | eot
  | wordB (neg : Bool)
  | cap (n : Nat) (r : Re)
  | cat (a b : Re)
  | alt (a b : Re)
  | star (greedy : Bool) (r : Re)
  | plus (greedy : Bool) (r : Re)
  | opt (greedy : Bool) (r : Re)
  deriving DecidableEq

/-- ASCII digit. -/
def isDigit (c : Char) : Bool := 48 ≤ c.toNat && c.toNat ≤ 57

/-- ASCII letter or digit (`isalnum` of `regexp/syntax`). -/
def isAlnum (c : Char) : Bool :=
  isDigit c || (65 ≤ c.toNat && c.toNat ≤ 90) || (97 ≤ c.toNat && c.toNat ≤ 122)

/-- Word character of `\w` and `\b`: `[0-9A-Za-z_]`. -/
def isWordChar (c : Char) : Bool := isAlnum c || c.toNat == 95

/-- Space character of `\s`: `[\t\n\f\r ]`. -/
def isPerlSpace (c : Char) : Bool :=
  c.toNat == 9 || c.toNat == 10 || c.toNat == 12 || c.toNat == 13 || c.toNat == 32

/-- The letters naming a Perl class. -/
def isPerlClassLetter (c : Char) : Bool :=
  c == 'd' || c == 'D' || c == 's' || c == 'S' || c == 'w' || c == 'W'

/-- Membership of `c` in the Perl class named by `k`. -/
def perlMatch (k c : Char) : Bool :=
  if k == 'd' then isDigit c
  else if k == 'D' then !isDigit c
  else if k == 's' then isPerlSpace c
  else if k == 'S' then !isPerlSpace c
  else if k == 'w' then isWordChar c
  else if k == 'W' then !isWordChar c
  else false

/-- Membership of a character in one item of a bracket expression. -/
def ClassItem.matches (c : Char) : ClassItem → Bool
  | .range lo hi => lo.toNat ≤ c.toNat && c.toNat ≤ hi.toNat
  | .perl k => perlMatch k c

/-- Membership of a character in a (possibly negated) bracket expression. With
the Perl flags a negated class matches a newline as well. -/
def classMatches (neg : Bool) (items : List ClassItem) (c : Char) : Bool :=
  if neg then !(items.any (ClassItem.matches c)) else items.any (ClassItem.matches c)

/-- The pattern can match the empty string. -/
def Re.nullable : Re → Bool
  | .emp => true
  | .lit _ => false
  | .cls _ _ => false
  | .dot => false
  | .bot => true
  | .eot => true
  | .wordB _ => true
  | .cap _ r => r.nullable
  | .cat a b => a.nullable && b.nullable
  | .alt a b => a.nullable || b.nullable
  | .star _ _ => true
  | .plus _ r => r.nullable
  | .opt _ _ => true

/-- Tokens of a pattern. `bad e` marks the place where lexing stops with an
error, so that errors are reported in source order. -/
inductive Tok where
  | atom (r : Re)
  | rep (op : Char) (greedy : Bool)
  | lpar (capturing : Bool)
  | rpar
  | bar
  | bad (e : Error)

/-- Single-character escape `\c` (`parseEscape`): punctuation stands for
itself, `\a \f \n \r \t \v` are control characters. Octal and hexadecimal
escapes are outside the fragment. -/
def escChar (c : Char) : Except Error Char :=
  if c == 'a' then .ok (Char.ofNat 7)
  else if c == 'f' then .ok (Char.ofNat 12)
  else if c == 'n' then .ok (Char.ofNat 10)
  else if c == 'r' then .ok (Char.ofNat 13)
  else if c == 't' then .ok (Char.ofNat 9)
  else if c == 'v' then .ok (Char.ofNat 11)
  else if c == 'x' || (48 ≤ c.toNat && c.toNat ≤ 55) then .error .unsupported
  else if c.toNat < 128 && !isAlnum c then .ok c
  else .error .invalidEscape

/-- End of a range whose start `lo` has been read (`parseClass`): `t` is the
text after `lo`. `lo-hi` is a range unless the `-` is followed by `]`. Returns
the member and the number of characters read after `lo`. -/
def rangeEnd (lo : Char) (t : Str) : Except Error (ClassItem × Nat) :=
  match t with
  | '-' :: h :: t' =>
    if h == ']' then .ok (.range lo lo, 0)
    else if h == '\\' then
      match t' with
      | [] => .error .trailingBackslash
      | e :: _ =>
        match escChar e with
        | .error err => .error err
        | .ok hi =>
          if hi.toNat < lo.toNat then .error .invalidCharRange else .ok (.range lo hi, 3)
    else if h.toNat < lo.toNat then .error .invalidCharRange
    else .ok (.range lo h, 2)
  | _ => .ok (.range lo lo, 0)

/-- Body of a bracket expression after `[` and an optional `^` (`parseClass`).
The first argument counts characters still to be skipped (already read as part
of the previous member); `first` is true before the first member, where `]` is
a literal. Returns the members and the number of characters read, the closing
`]` included. -/
def classLoop : Nat → Bool → Str → List ClassItem → Nat →
    Except Error (List ClassItem × Nat)
  | _, _, [], _, _ => .error .missingBracket
  | k + 1, first, _ :: rest, acc, n => classLoop k first rest acc n
  | 0, first, c :: rest, acc, n =>
    if c == ']' && !first then .ok (acc.reverse, n + 1)
    else if c == '[' && rest.head? == some ':' then .error .unsupported
    else if c == '\\' then
      match rest with
      | [] => .error .trailingBackslash
      | e :: rest' =>
        if e == 'p' || e == 'P' then .error .unsupported
        else if isPerlClassLetter e then classLoop 1 false rest (.perl e :: acc) (n + 2)
        else
          match escChar e with
          | .error err => .error err
          | .ok lo =>
            match rangeEnd lo rest' with
            | .error err => .error err
            | .ok (item, m) => classLoop (1 + m) false rest (item :: acc) (n + 2 + m)
    else
      match rangeEnd c rest with
      | .error err => .error err
      | .ok (item, m) => classLoop m false rest (item :: acc) (n + 1 + m)

/-- A bracket expression, read after its `[`: the node and the number of
characters read. -/
def parseClass (rest : Str) : Except Error (Re × Nat) :=
  match rest with
  | '^' :: rest' =>
    match classLoop 0 true rest' [] 1 with
    | .error e => .error e
    | .ok (items, n) => .ok (.cls true items, n)
  | _ =>
    match classLoop 0 true rest [] 0 with
    | .error e => .error e
    | .ok (items, n) => .ok (.cls false items, n)

/-- The node for `\c` outside a bracket expression. -/
def escAtom (c : Char) : Except Error Re :=
  if c == 'A' then .ok .bot
  else if c == 'z' then .ok .eot
  else if c == 'b' then .ok (.wordB false)
  else if c == 'B' then .ok (.wordB true)
  else if c == 'C' then .error .invalidEscape
  else if c == 'Q' || c == 'p' || c == 'P' then .error .unsupported
  else if isPerlClassLetter c then .ok (.cls false [.perl c])
  else
    match escChar c with
    | .error e => .error e
    | .ok l => .ok (.lit l)

/-- Lexer. The first argument counts characters still to be skipped (those
already read as part of the previous token). -/
def lexAux : Nat → Str → List Tok
  | _, [] => []
  | n + 1, _ :: rest => lexAux n rest
  | 0, c :: rest =>
    if c == '\\' then
      match rest with
      | [] => [.bad .trailingBackslash]
      | e :: _ =>
        match escAtom e with
        | .error err => [.bad err]
        | .ok r => .atom r :: lexAux 1 rest
    else if c == '[' then
      match parseClass rest with
      | .error err => [.bad err]
      | .ok (r, n) => .atom r :: lexAux n rest
    else if c == '(' then
      if rest.head? == some '?' then
        if rest.tail.head? == some ':' then .lpar false :: lexAux 2 rest
        else [.bad .unsupported]
      else .lpar true :: lexAux 0 rest
    else if c == ')' then .rpar :: lexAux 0 rest
    else if c == '|' then .bar :: lexAux 0 rest
    else if c == '*' || c == '+' || c == '?' then
      if rest.head? == some '?' then .rep c false :: lexAux 1 rest
      else .rep c true :: lexAux 0 rest
    else if c == '{' then [.bad .unsupported]
    else if c == '.' then .atom .dot :: lexAux 0 rest
    else if c == '^' then .atom .bot :: lexAux 0 rest
    else if c == '$' then .atom .eot :: lexAux 0 rest
    else .atom (.lit c) :: lexAux 0 rest

/-- A group being parsed: the alternatives already closed by `|`, the items of
the current concatenation (both most recent first) and the group number of a
capturing group. -/
structure Frame where
  alts : List Re
  cur : List Re
  cap : Option Nat

/-- Concatenation of items given most recent first. -/
def mkCat : List Re → Re
  | [] => .emp
  | [r] => r
  | r :: rs => .cat (mkCat rs) r

/-- Alternation of alternatives given most recent first. -/
def mkAlt : List Re → Re
  | [] => .emp
  | [r] => r
  | r :: rs => .alt (mkAlt rs) r

/-- The node of a finished group. -/
def closeFrame (f : Frame) : Re :=
  match f.cap with
  | some n => .cap n (mkAlt (mkCat f.cur :: f.alts))
  | none => mkAlt (mkCat f.cur :: f.alts)

/-- The node of a repetition operator applied to `x`. -/
def mkRep (op : Char) (greedy : Bool) (x : Re) : Re :=
  if op == '*' then .star greedy x
  else if op == '+' then .plus greedy x
  else .opt greedy x

/-- Parser over the tokens (the operator stack of `regexp/syntax.Parse`).
`ncap` counts the capturing groups opened so far; `lastRep` tells that the
previous token was a repetition operator. A `*` or `+` over a pattern that can
match the empty string is outside the fragment. -/
def parseToks : List Tok → Frame → List Frame → Nat → Bool → Except Error (Re × Nat)
  | [], f, [], ncap, _ => .ok (closeFrame f, ncap)
  | [], _, _ :: _, _, _ => .error .missingParen
  | .bad e :: _, _, _, _, _ => .error e
  | .atom r :: ts, f, st, ncap, _ => parseToks ts { f with cur := r :: f.cur } st ncap false
  | .rep op g :: ts, f, st, ncap, lastRep =>
    if lastRep then .error .invalidRepeatOp
    else
      match f.cur with
      | [] => .error .missingRepeatArgument
      | x :: xs =>
        if op != '?' && x.nullable then .error .unsupported
        else parseToks ts { f with cur := mkRep op g x :: xs } st ncap true
  | .lpar true :: ts, f, st, ncap, _ =>
    parseToks ts ⟨[], [], some (ncap + 1)⟩ (f :: st) (ncap + 1) false
  | .lpar false :: ts, f, st, ncap, _ => parseToks ts ⟨[], [], none⟩ (f :: st) ncap false
  | .bar :: ts, f, st, ncap, _ =>
    parseToks ts { f with alts := mkCat f.cur :: f.alts, cur := [] } st ncap false
  | .rpar :: _, _, [], _, _ => .error .unexpectedParen
  | .rpar :: ts, f, p :: st, ncap, _ =>
    parseToks ts { p with cur := closeFrame f :: p.cur } st ncap false

end Regexp

/-- A compiled pattern (`*regexp.Regexp`): its source text, its syntax tree and
the number of its capturing groups. -/
structure Regexp where
  expr : Str
  re : Regexp.Re
  numSubexp : Nat
  deriving DecidableEq

deriving instance DecidableEq for Except

namespace Regexp

/-- Model of `regexp.Compile`. -/
def compile (expr : Str) : Except Error Regexp :=
  match parseToks (lexAux 0 expr) ⟨[], [], none⟩ [] 0 false with
  | .error e => .error e
  | .ok (r, n) => .ok ⟨expr, r, n⟩


/-! ## `regexp`: matching

Leftmost-first (Perl-like) matching, as a backtracking matcher written in
continuation-passing style: alternatives are tried in priority order and the
first complete match found is the result. -/

/-- Capture registers: `(n, start, stop)` for group `n`, most recent first. -/
abbrev Caps := List (Nat × Nat × Nat)

/-- The rest of a match: given the character before the current position (if
any), the current position, the remaining input and the registers, the end of
the match and the final registers. -/
abbrev Cont := Option Char → Nat → Str → Caps → Option (Nat × Caps)

/-- Consume one character satisfying `p`. -/
def stepChar (p : Char → Bool) (k : Cont) : Cont
  | _, i, c :: rest, caps => if p c then k (some c) (i + 1) rest caps else none
  | _, _, [], _ => none

/-- Word character test at an optional character (absent at the text ends). -/
def isWordAt : Option Char → Bool
  | some c => isWordChar c
  | none => false

/-- The loop of `r*`: at most `fuel` further iterations of `body`, each of which
has to consume input, then `k`. A greedy loop prefers one more iteration, a lazy
loop prefers to leave. -/
def loopStar (greedy : Bool) (body : Cont → Cont) (k : Cont) : Nat → Cont
  | 0 => k
  | fuel + 1 => fun prev i rest caps =>
    if greedy then
      (body (fun prev' i' rest' caps' =>
          if i < i' then loopStar greedy body k fuel prev' i' rest' caps' else none)
        prev i rest caps).orElse fun _ => k prev i rest caps
    else
      (k prev i rest caps).orElse fun _ =>
        body (fun prev' i' rest' caps' =>
          if i < i' then loopStar greedy body k fuel prev' i' rest' caps' else none)
        prev i rest caps

/-- The backtracking matcher: `run r k` matches `r` at the current position and
continues with `k`. -/
def run : Re → Cont → Cont
  | .emp, k => k
  | .lit c, k => stepChar (fun d => d == c) k
  | .cls neg items, k => stepChar (classMatches neg items) k
  | .dot, k => stepChar (fun d => d.toNat != 10) k
  | .bot, k => fun prev i rest caps => if i == 0 then k prev i rest caps else none
  | .eot, k => fun prev i rest caps => if rest.isEmpty then k prev i rest caps else none
  | .wordB neg, k => fun prev i rest caps =>
    if (isWordAt prev != isWordAt rest.head?) != neg then k prev i rest caps else none
  | .cap n r, k => fun prev i rest caps =>
    run r (fun prev' i' rest' caps' => k prev' i' rest' ((n, i, i') :: caps')) prev i rest caps
  | .cat a b, k => run a (run b k)
  | .alt a b, k => fun prev i rest caps =>
    (run a k prev i rest caps).orElse fun _ => run b k prev i rest caps
  | .star g r, k => fun prev i rest caps =>
    loopStar g (run r) k rest.length prev i rest caps
  | .plus g r, k => fun prev i rest caps =>
    run r (fun prev' i' rest' caps' => loopStar g (run r) k rest'.length prev' i' rest' caps')
      prev i rest caps
  | .opt g r, k => fun prev i rest caps =>
    if g then (run r k prev i rest caps).orElse fun _ => k prev i rest caps
    else (k prev i rest caps).orElse fun _ => run r k prev i rest caps

/-- The final continuation: the match ends here. -/
def accept : Cont := fun _ i _ caps => some (i, caps)

/-- Unanchored search: the leftmost position, from the current one on, at which
the pattern matches; the result is the start, the end and the registers. -/
def searchAt (r : Re) : Option Char → Nat → Str → Option (Nat × Nat × Caps)
  | prev, i, [] =>
    match run r accept prev i [] [] with
    | some (j, caps) => some (i, j, caps)
    | none => none
  | prev, i, c :: rest =>
    match run r accept prev i (c :: rest) [] with
    | some (j, caps) => some (i, j, caps)
    | none => searchAt r (some c) (i + 1) rest

/-- The character before position `pos` of a text and the text from `pos` on. -/
def seek : Str → Nat → Option Char → Option Char × Str
  | s, 0, prev => (prev, s)
  | [], _ + 1, prev => (prev, [])
  | c :: s, n + 1, _ => seek s n (some c)

/-- The registers of group `n`, if the group took part in the match. -/
def capLookup (n : Nat) : Caps → Option (Nat × Nat)
  | [] => none
  | (m, a, b) :: rest => if m == n then some (a, b) else capLookup n rest

/-- The text `s[a:b]`. -/
def substr (s : Str) (a b : Nat) : Str := (s.drop a).take (b - a)

/-- Search of `re` in `s` from position `pos` on (`doExecute`): the index pairs
of the whole match and of the groups `1..numSubexp`, `none` for a group that
took no part. -/
def exec (re : Regexp) (s : Str) (pos : Nat) : Option (List (Option (Nat × Nat))) :=
  match searchAt re.re (seek s pos none).1 pos (seek s pos none).2 with
  | none => none
  | some (a, b, caps) =>
    some (some (a, b) :: (List.range re.numSubexp).map fun n => capLookup (n + 1) caps)

/-- The text of an index pair; the empty text for a group that took no part. -/
def groupText (s : Str) : Option (Nat × Nat) → Str
  | some (a, b) => substr s a b
  | none => []

/-- Model of `(*Regexp).FindStringSubmatch`: the texts of the leftmost match
and of its groups (`1 + numSubexp` entries), `none` for Go's `nil`. -/
def findStringSubmatch (re : Regexp) (s : Str) : Option (List Str) :=
  (exec re s 0).map fun m => m.map (groupText s)

/-- Model of `(*Regexp).Match` / `MatchString`. -/
def matchString (re : Regexp) (s : Str) : Bool := (exec re s 0).isSome

/-! ## `regexp`: replacement -/

/-- Character that may belong to a `$name` of a template. Go tests
`unicode.IsLetter`, `unicode.IsDigit` and `_`; the model knows the ASCII letters
and digits only. -/
def isNameChar (c : Char) : Bool := isAlnum c || c == '_'

/-- The number denoted by a name made of ASCII digits only (`extract`): `none`
for another name, for a name with a leading zero and for a number of 10^8 or
more reached before the last digit. -/
def nameNumber (name : Str) : Option Nat :=
  if name.head? == some '0' && 1 < name.length then none
  else name.foldl (fun acc c =>
    match acc with
    | none => none
    | some n => if isDigit c && n < 100000000 then some (n * 10 + (c.toNat - 48)) else none)
    (some 0)

/-- Model of `extract`: the name after a `$`, in the form `name` or `{name}`,
and the number of characters it takes; `none` when there is no well-formed
name. -/
def extract (t : Str) : Option (Str × Nat) :=
  match t with
  | [] => none
  | '{' :: t' =>
    let name := t'.takeWhile isNameChar
    if name.isEmpty then none
    else if (t'.drop name.length).head? == some '}' then some (name, name.length + 2)
    else none
  | _ =>
    let name := t.takeWhile isNameChar
    if name.isEmpty then none else some (name, name.length)

/-- The text a template reference `$name` stands for (`expand`): the text of the
numbered group, or nothing. Named groups are outside the fragment, so a name
that is not a number denotes no group. -/
def refText (src : Str) (m : List (Option (Nat × Nat))) (name : Str) : Str :=
  match nameNumber name with
  | some n => groupText src (m.getD n none)
  | none => []

/-- Model of `(*Regexp).expand`: the template with `$$` replaced by `$` and each
`$name` or `${name}` by the group's text; a `$` not followed by a name stands
for itself. The first argument counts template characters still to be
skipped. -/
def expandAux (src : Str) (m : List (Option (Nat × Nat))) : Nat → Str → Str
  | _, [] => []
  | n + 1, _ :: t => expandAux src m n t
  | 0, c :: t =>
    if c == '$' then
      if t.head? == some '$' then '$' :: expandAux src m 1 t
      else
        match extract t with
        | none => '$' :: expandAux src m 0 t
        | some (name, n) => refText src m name ++ expandAux src m n t
    else c :: expandAux src m 0 t

/-- The replacement loop of `(*Regexp).replaceAll`. `searchPos` is where the
next match is looked for and `lastMatchEnd` the end of the previous match; a
match of the empty text right after another match is not replaced. -/
def replaceLoop (re : Regexp) (src repl : Str) : Nat → Nat → Nat → Str
  | 0, _, lastMatchEnd => src.drop lastMatchEnd
  | fuel + 1, searchPos, lastMatchEnd =>
    if src.length < searchPos then src.drop lastMatchEnd
    else
      match exec re src searchPos with
      | none => src.drop lastMatchEnd
      | some m =>
        match m.head? with
        | some (some (a0, a1)) =>
          substr src lastMatchEnd a0 ++
          (if lastMatchEnd < a1 || a0 == 0 then expandAux src m 0 repl else []) ++
          replaceLoop re src repl fuel
            (if a1 < searchPos + (if searchPos < src.length then 1 else 0)
              then searchPos + (if searchPos < src.length then 1 else 0)
             else if a1 < searchPos + 1 then searchPos + 1
             else a1)
            a1
        | _ => src.drop lastMatchEnd

/-- Model of `(*Regexp).ReplaceAllString`: every match of `re` in `src`, from
left to right and without overlap, is replaced by the expansion of the
template `repl`. The search position grows at every turn, so `length + 2`
turns suffice (`replaceAllString_fuel`). -/
def replaceAllString (re : Regexp) (src repl : Str) : Str :=
  replaceLoop re src repl (src.length + 2) 0 0

/-- Model of `regexp.QuoteMeta`: a backslash before each of ``\.+*?()|[]{}^$``. -/
def quoteMeta (s : Str) : Str :=
  s.flatMap fun c => if "\\.+*?()|[]{}^$".toList.contains c then ['\\', c] else [c]

/-! ## `regexp`: what a match is

A declarative reading of the patterns, against which the matcher is proved
sound and complete (`run_isSome`). -/

/-- The character before the position reached after reading `w` from a position
preceded by `prev`. -/
def prevAfter (prev : Option Char) (w : Str) : Option Char :=
  match w.getLast? with
  | some c => some c
  | none => prev

/-- Iteration of a match relation `P`: the text `w` is a sequence of non-empty
pieces, each of which satisfies `P` where it stands. -/
inductive StarM (P : Option Char → Nat → Str → Str → Prop) :
    Option Char → Nat → Str → Str → Prop where
  | nil {prev i w rest} : w = [] → StarM P prev i w rest
  | cons {prev i w rest} (w1 w2 : Str) : w = w1 ++ w2 → w1 ≠ [] → P prev i w1 (w2 ++ rest) →
      StarM P (prevAfter prev w1) (i + w1.length) w2 rest → StarM P prev i w rest

/-- The relation `Matches r prev i w rest`: the pattern `r` matches the text
`w` standing at position `i`, after the character `prev` and before the text
`rest`. -/
def Matches : Re → Option Char → Nat → Str → Str → Prop
  | .emp, _, _, w, _ => w = []
  | .lit c, _, _, w, _ => w = [c]
  | .cls neg items, _, _, w, _ => ∃ d, w = [d] ∧ classMatches neg items d = true
  | .dot, _, _, w, _ => ∃ d, w = [d] ∧ (d.toNat != 10) = true
  | .bot, _, i, w, _ => w = [] ∧ i = 0
  | .eot, _, _, w, rest => w = [] ∧ rest = []
  | .wordB neg, prev, _, w, rest =>
    w = [] ∧ ((isWordAt prev != isWordAt rest.head?) != neg) = true
  | .cap _ r, prev, i, w, rest => Matches r prev i w rest
  | .cat a b, prev, i, w, rest =>
    ∃ w1 w2, w = w1 ++ w2 ∧ Matches a prev i w1 (w2 ++ rest) ∧
      Matches b (prevAfter prev w1) (i + w1.length) w2 rest
  | .alt a b, prev, i, w, rest => Matches a prev i w rest ∨ Matches b prev i w rest
  | .star _ r, prev, i, w, rest => StarM (Matches r) prev i w rest
  | .plus _ r, prev, i, w, rest =>
    ∃ w1 w2, w = w1 ++ w2 ∧ Matches r prev i w1 (w2 ++ rest) ∧
      StarM (Matches r) (prevAfter prev w1) (i + w1.length) w2 rest
  | .opt _ r, prev, i, w, rest => w = [] ∨ Matches r prev i w rest

/-- A continuation whose success does not depend on the registers. -/
def CapsFree (k : Cont) : Prop :=
  ∀ prev i rest c1 c2, (k prev i rest c1).isSome = (k prev i rest c2).isSome

/-- The statement proved of `run r`: it succeeds exactly when the input splits
into a text matched by the pattern and a rest accepted by the continuation. -/
def RunSpec (P : Option Char → Nat → Str → Str → Prop) (body : Cont → Cont) : Prop :=
  ∀ k, CapsFree k → ∀ prev i input caps,
    (body k prev i input caps).isSome = true ↔
      ∃ w rest, input = w ++ rest ∧ P prev i w rest ∧
        (k (prevAfter prev w) (i + w.length) rest []).isSome = true

/-- The pattern has a match somewhere in the text. -/
def HasMatch (r : Re) (s : Str) : Prop :=
  ∃ pre w rest, s = pre ++ (w ++ rest) ∧ Matches r (prevAfter none pre) pre.length w rest

/-- The pattern looks at no text after the position it has reached (it has
neither `$` nor a word boundary). -/
def Re.noLook : Re → Bool
  | .eot => false
  | .wordB _ => false
  | .cap _ r => r.noLook
  | .cat a b => a.noLook && b.noLook
  | .alt a b => a.noLook && b.noLook
  | .star _ r => r.noLook
  | .plus _ r => r.noLook
  | .opt _ r => r.noLook
  | _ => true

/-- The class `\s`. -/
def spaceClass : Re := .cls false [.perl 's']

/-- The part of a pattern of the form `body\s*$` before the final `\s*$`. -/
def Re.body : Re → Re
  | .cat (.cat r _) _ => r
  | r => r

/-- The pattern has the form `body\s*$` where `body` looks at no text after its
match. -/
def Re.endsWithSpaces (r : Re) : Bool :=
  decide (r = .cat (.cat r.body (.star true spaceClass)) .eot) && r.body.noLook

end Regexp

/-! ## `strings`, `bytes`, `path/filepath`, `bufio` -/

/-- Model of `strings.TrimRight(s, cutset)`: `s` without its trailing
characters that belong to `cutset`. -/
def trimRight (s cutset : Str) : Str := s.rdropWhile fun c => cutset.contains c

/-- The replacement loop of `strings.Replace` for a non-empty `old`: every
occurrence of `old`, found from left to right without overlap, becomes `new`.
The first argument counts characters still to be skipped (the rest of an
occurrence just replaced). -/
def replaceOcc (old new : Str) : Nat → Str → Str
  | _, [] => []
  | n + 1, _ :: t => replaceOcc old new n t
  | 0, c :: t =>
    if old.isPrefixOf (c :: t) then new ++ replaceOcc old new (old.length - 1) t
    else c :: replaceOcc old new 0 t

/-- Model of `strings.Replace(s, old, new, -1)`. An empty `old` matches at the
beginning of the text and after every character. -/
def stringsReplace (s old new : Str) : Str :=
  if old.isEmpty then new ++ s.flatMap fun c => c :: new
  else replaceOcc old new 0 s

/-- Model of `unicode.IsSpace`, the characters `bytes.TrimSpace` removes. -/
def isSpace (c : Char) : Bool :=
  (9 ≤ c.toNat && c.toNat ≤ 13) || c.toNat == 32 || c.toNat == 0x85 || c.toNat == 0xA0 ||
  c.toNat == 0x1680 || (0x2000 ≤ c.toNat && c.toNat ≤ 0x200A) || c.toNat == 0x2028 ||
  c.toNat == 0x2029 || c.toNat == 0x202F || c.toNat == 0x205F || c.toNat == 0x3000

/-- Auxiliary scan of `filepath.Ext` over the reversed path. -/
def extAux : Str → Str → Str
  | [], _ => []
  | c :: rest, acc =>
    if c == '/' then [] else if c == '.' then '.' :: acc else extAux rest (c :: acc)

/-- Model of `filepath.Ext`: the suffix beginning at the final dot of the final
element of the path, empty when there is no dot. -/
def filepathExt (path : Str) : Str := extAux path.reverse []

/-- Number of bytes of the UTF-8 encoding of a character. -/
def utf8Width (c : Char) : Nat :=
  if c.toNat < 0x80 then 1 else if c.toNat < 0x800 then 2 else if c.toNat < 0x10000 then 3 else 4

/-- Number of bytes of the UTF-8 encoding of a text. -/
def utf8Len (s : Str) : Nat := (s.map utf8Width).sum

/-- The constant `bufio.MaxScanTokenSize`. -/
def maxScanTokenSize : Nat := 64 * 1024

/-- Model of `dropCR`: a line without its final carriage return. -/
def dropCR (s : Str) : Str := if s.getLast? == some '\r' then s.dropLast else s

/-- The lines a `bufio.Scanner` with the default split function `ScanLines`
yields for a text: the text is cut at each `\n`, a final piece without `\n` is a
line when it is not empty, and one trailing `\r` is dropped from each line. The
second argument collects the characters of the current line, most recent first.
The flag tells that scanning stopped with `bufio.ErrTooLong` at a piece that
does not fit the scanner's buffer (`maxScanTokenSize` bytes or more). -/
def scanAux : Str → Str → List Str × Bool
  | [], acc =>
    if acc.isEmpty then ([], false)
    else if maxScanTokenSize ≤ utf8Len acc then ([], true)
    else ([dropCR acc.reverse], false)
  | c :: rest, acc =>
    if c == '\n' then
      if maxScanTokenSize ≤ utf8Len acc then ([], true)
      else (dropCR acc.reverse :: (scanAux rest []).1, (scanAux rest []).2)
    else scanAux rest (c :: acc)

/-- The lines of a text and the too-long flag, see `scanAux`. -/
def scanLines (content : Str) : List Str × Bool := scanAux content []

/-! ## The program -/

/-- The table `commentPrefixMap`: file extension to comment marker. -/
def commentPrefixMap : List (Str × Str) :=
  [(".sql".toList, "--".toList), (".go".toList, "//".toList), (".js".toList, "//".toList)]

/-- The struct `SSOT`. `LineMatchMap` maps an extension to a `*regexp.Regexp`,
`none` standing for the nil pointer. (`CurrentExt` is never used.) -/
structure SSOT where
  Files : List Str
  Constants : List (Str × Str)
  LineMatchMap : List (Str × Option Regexp)

/-- Assignment `m[k] = v` on a Go map held as an association list. -/
def mapSet {β : Type} (m : List (Str × β)) (k : Str) (v : β) : List (Str × β) :=
  (k, v) :: m.filter fun e => e.1 != k

/-- The pattern text built by `lineMatchRegex` for a comment marker. -/
def lineMatchSource (marker : Str) : Str :=
  "^(.*)".toList ++ Regexp.quoteMeta marker ++
    "\\s*ssot\\[\\s*([^]]+)\\s*\\]:\\s*(.+)\\s*$".toList

/-- Errors of `lineMatchRegex`. -/
inductive LineRegexError where
  | unsupportedFileType (ext : Str)
  | compile (e : Regexp.Error)
  deriving DecidableEq

/-- Method `lineMatchRegex`: the state after the call, the returned pointer and
the returned error. The map is written only when compilation fails, and then
with the nil pointer. -/
def lineMatchRegex (ssot : SSOT) (ext : Str) : SSOT × Option Regexp × Option LineRegexError :=
  match ssot.LineMatchMap.lookup ext with
  | some re => (ssot, re, none)
  | none =>
    match commentPrefixMap.lookup ext with
    | none => (ssot, none, some (.unsupportedFileType ext))
    | some marker =>
      match Regexp.compile (lineMatchSource marker) with
      | .error e => ({ ssot with LineMatchMap := mapSet ssot.LineMatchMap ext none }, none,
          some (.compile e))
      | .ok re => (ssot, some re, none)

/-- The loop of `Initialize` over the extensions of `commentPrefixMap`; the
error is `preparing regex for ext` wrapping the error of `lineMatchRegex`. -/
def initLoop : List Str → SSOT → SSOT × Option (Str × LineRegexError)
  | [], ssot => (ssot, none)
  | ext :: exts, ssot =>
    match ssot.LineMatchMap.lookup ext with
    | some _ => initLoop exts ssot
    | none =>
      match lineMatchRegex ssot ext with
      | (ssot', _, some e) => (ssot', some (ext, e))
      | (ssot', re, none) =>
        initLoop exts { ssot' with LineMatchMap := mapSet ssot'.LineMatchMap ext re }

/-- Method `Initialize`. Go iterates over the map in an unspecified order; the
model takes the order of the table. -/
def Initialize (ssot : SSOT) : SSOT × Option (Str × LineRegexError) :=
  initLoop (commentPrefixMap.map Prod.fst) { ssot with LineMatchMap := [] }

/-- Errors of `decorateLineRegex`. -/
inductive DecorateError where
  | empty
  | compile (e : Regexp.Error)
  deriving DecidableEq

/-- The pattern text that `decorateLineRegex` compiles. `regex[:1]` is the
first character of the text. -/
def decorateSource (regex : Str) : Str :=
  let regex1 :=
    if regex.head? == some '^' then "^()".toList ++ regex.take 1
    else "^(.+?)".toList ++ regex
  if regex1.getLast? == some '$' then regex1.take 1 ++ "()$".toList
  else regex1 ++ "(.+?)$".toList

/-- Function `decorateLineRegex`. -/
def decorateLineRegex (regex : Str) : Except DecorateError Regexp :=
  if regex.length == 0 then .error .empty
  else
    match Regexp.compile (decorateSource regex) with
    | .error e => .error (.compile e)
    | .ok re => .ok re

/-- Errors returned by `maybeUpdateLine`, one per `fmt.Errorf` of the function,
with the values formatted into the message. -/
inductive LineError where
  | compileRegex (regex line : Str) (e : Regexp.Error)
  | notMatching (regex code : Str)
  | constantNotFound (constant line : Str)
  | compileDecorated (regex line : Str) (e : DecorateError)
  deriving DecidableEq

/-- Result of `maybeUpdateLine`: the returned line and error, or a run-time
panic. -/
inductive LineResult where
  | ret (line : Str) (err : Option LineError)
  | panic
  deriving DecidableEq

/-- The characters trimmed at the end of every returned line. -/
def trimSet : Str := " \t".toList

/-- Method `maybeUpdateLine`. All paths leave through the label `end`, where
the line is trimmed on the right. -/
def maybeUpdateLine (ssot : SSOT) (re : Option Regexp) (commentChars line : Str) : LineResult :=
  match re with
  | none => .panic
  | some re =>
    match re.findStringSubmatch line with
    | none => .ret (trimRight line trimSet) none
    | some ms =>
      match ms[1]?, ms[2]?, ms[3]? with
      | some code, some constant, some regex =>
        match Regexp.compile regex with
        | .error e => .ret (trimRight line trimSet) (some (.compileRegex regex line e))
        | .ok vre =>
          match vre.findStringSubmatch code with
          | none => .ret (trimRight line trimSet) (some (.notMatching regex code))
          | some vms =>
            match ssot.Constants.lookup constant with
            | none => .ret (trimRight line trimSet) (some (.constantNotFound constant line))
            | some newValue =>
              match vms[0]?, vms[1]? with
              | some m0, some m1 =>
                match decorateLineRegex regex with
                | .error e => .ret (trimRight line trimSet) (some (.compileDecorated regex line e))
                | .ok dre =>
                  .ret (trimRight
                    (dre.replaceAllString code
                        ("$1".toList ++ stringsReplace m0 m1 newValue ++ "$3".toList) ++
                      commentChars ++ "ssot[".toList ++ constant ++ "]: ".toList ++ regex)
                    trimSet) none
              | _, _ => .panic
      | _, _, _ => .panic

/-- The package variable `regexSSOTFileMatch`. -/
def regexSSOTFileMatchSource : Str := "ssot\\[([^]]+)\\]: .+".toList

/-- The compiled `regexSSOTFileMatch`, written out; `regexp.MustCompile`
yields it (`compile_regexSSOTFileMatch`). -/
def regexSSOTFileMatch : Regexp :=
  { expr := regexSSOTFileMatchSource
    re := .cat (.cat (.cat (.cat (.cat (.cat (.cat (.cat (.cat (.lit 's') (.lit 's')) (.lit 'o'))
      (.lit 't')) (.lit '[')) (.cap 1 (.plus true (.cls true [.range ']' ']'])))) (.lit ']'))
      (.lit ':')) (.lit ' ')) (.plus true .dot)
    numSubexp := 1 }

/-- Errors of the operating system (`os.ReadFile`, `os.WriteFile`). -/
structure IOError where
  msg : Str
  deriving DecidableEq

/-- Errors returned by `maybeUpdateFile`, one per `fmt.Errorf` of the function. -/
inductive FileError where
  | reading (fp : Str) (e : IOError)
  | noSSOTComments (fp : Str)
  | lineMatchRegexNotFound (ext : Str)
  | commentPrefixNotFound (ext : Str)
  | updateLine (line : Str) (e : LineError)
  | updatingFile (fp : Str)
  | replacing (fp : Str) (e : IOError)
  deriving DecidableEq

/-- Result of the scanning loop of `maybeUpdateFile`: the buffer after the last
line, the first line-level failure, or a panic. -/
inductive LoopResult where
  | done (buf : Str)
  | failed (line : Str) (e : LineError)
  | panic
  deriving DecidableEq

/-- The loop `for scanner.Scan()` of `maybeUpdateFile` over the scanned lines,
with the content of `buf` so far. The second component records the lines handed
to `maybeUpdateLine`, in order. -/
def updateLines (ssot : SSOT) (re : Option Regexp) (commentChars : Str) :
    List Str → Str → LoopResult × List Str
  | [], buf => (.done buf, [])
  | l :: ls, buf =>
    match maybeUpdateLine ssot re commentChars l with
    | .panic => (.panic, [l])
    | .ret line (some e) => (.failed line e, [l])
    | .ret line none =>
      ((updateLines ssot re commentChars ls (buf ++ line ++ ['\n'])).1,
        l :: (updateLines ssot re commentChars ls (buf ++ line ++ ['\n'])).2)

/-- The content of `buf` after the loop of `maybeUpdateFile` has written the
given lines: each line followed by a newline (`buf.WriteString(line)`,
`buf.WriteByte('\n')`). -/
def joinLines (lines : List Str) : Str := lines.flatMap fun l => l ++ ['\n']

/-- What `maybeUpdateFile` returns: the error and the content handed to
`os.WriteFile` for the path (`none` when `os.WriteFile` is not called), or a
panic, which ends the process before any write. -/
inductive FileResult where
  | ret (err : Option FileError) (written : Option Str)
  | panic
  deriving DecidableEq

/-- The content written by a run, if any. -/
def FileResult.written : FileResult → Option Str
  | .ret _ w => w
  | .panic => none

/-- One run of `maybeUpdateFile`: its result and the lines it handed to
`maybeUpdateLine`, in order. -/
structure FileRun where
  result : FileResult
  processed : List Str
  deriving DecidableEq

/-- What the end of `maybeUpdateFile` does with the buffer of a loop that ran
over all scanned lines: the scanner's error, the guard against an empty or
all-whitespace buffer, the comparison with the original content, the write. -/
def finish (fp content updated : Str) (tooLong : Bool) (writeErr : Option IOError) :
    FileResult :=
  if tooLong then .ret (some (.updatingFile fp)) none
  else if updated.all isSpace then .ret none none
  else if content == updated then .ret none none
  else
    match writeErr with
    | some e => .ret (some (.replacing fp e)) (some updated)
    | none => .ret none (some updated)

/-- Method `maybeUpdateFile`. The environment is explicit: `read` is the result
of `os.ReadFile(fp)` and `writeErr` the error `os.WriteFile` returns if it is
called. -/
def maybeUpdateFile (ssot : SSOT) (fp : Str) (read : Except IOError Str)
    (writeErr : Option IOError) : FileRun :=
  match read with
  | .error e => ⟨.ret (some (.reading fp e)) none, []⟩
  | .ok content =>
    if !regexSSOTFileMatch.matchString content then ⟨.ret (some (.noSSOTComments fp)) none, []⟩
    else
      match ssot.LineMatchMap.lookup (filepathExt fp) with
      | none => ⟨.ret (some (.lineMatchRegexNotFound (filepathExt fp))) none, []⟩
      | some re =>
        match commentPrefixMap.lookup (filepathExt fp) with
        | none => ⟨.ret (some (.commentPrefixNotFound (filepathExt fp))) none, []⟩
        | some commentChars =>
          ⟨match (updateLines ssot re commentChars (scanLines content).1 []).1 with
            | .panic => .panic
            | .failed line e => .ret (some (.updateLine line e)) none
            | .done updated => finish fp content updated (scanLines content).2 writeErr,
           (updateLines ssot re commentChars (scanLines content).1 []).2⟩

/-! ## Fixtures -/

/-- A registry as `main` holds it after `Initialize`: no files, the given
constants, the directive regex of every extension of the table. -/
def registry (constants : List (Str × Str)) : SSOT := (Initialize ⟨[], constants, []⟩).1

/-- The directive regex of an extension, as `lineMatchRegex` returns it. -/
def directiveRegex (ext : Str) : Option Regexp := (lineMatchRegex ⟨[], [], []⟩ ext).2.1

/-- The directive regex of `.go` files (`directiveRegex_go`). -/
def goLineRegex : Regexp := (directiveRegex ".go".toList).getD ⟨[], .emp, 0⟩

/-- Following the words of the specification: the text of a line from the
first `pat` to its end (the empty text when `pat` does not occur). -/
def textFrom (pat : Str) : Str → Str
  | [] => []
  | c :: t => if pat.isPrefixOf (c :: t) then c :: t else textFrom pat t

/-- Following the words of the specification: the directive text of a line,
from `ssot[` to the end of the line. -/
def directiveText (line : Str) : Str := textFrom "ssot[".toList line

/-- The errors of `maybeUpdateFile` that report an extension without entry. -/
def FileError.isUnsupportedExtension : FileError → Bool
  | .lineMatchRegexNotFound _ => true
  | .commentPrefixNotFound _ => true
  | _ => false

/-! ## `main` -/

/-- The environment of a run of `main`: for the `n`-th call of
`maybeUpdateFile` and its path, the result of `os.ReadFile` and the error
`os.WriteFile` returns if it is called. -/
abbrev Env := Nat → Str → Except IOError Str × Option IOError

/-- The loop of `main` over `ssot.Files`: the calls of `maybeUpdateFile` made
(path and result, in order) and the slice `errs`. A panic ends the process, so
the call that panics is the last one. -/
structure ScanRun where
  calls : List (Str × FileResult)
  errs : List FileError
  deriving DecidableEq

/-- The loop `for _, f := range ssot.Files` of `main`, from the `n`-th call
on. -/
def scanFiles (ssot : SSOT) (env : Env) : Nat → List Str → ScanRun
  | _, [] => ⟨[], []⟩
  | n, f :: fs =>
    match (maybeUpdateFile ssot f (env n f).1 (env n f).2).result with
    | .panic => ⟨[(f, .panic)], []⟩
    | .ret none w =>
      ⟨(f, .ret none w) :: (scanFiles ssot env (n + 1) fs).calls,
        (scanFiles ssot env (n + 1) fs).errs⟩
    | .ret (some e) w =>
      ⟨(f, .ret (some e) w) :: (scanFiles ssot env (n + 1) fs).calls,
        e :: (scanFiles ssot env (n + 1) fs).errs⟩

/-- A call of the loop panicked. -/
def ScanRun.panicked (r : ScanRun) : Bool := r.calls.any fun c => c.2 == .panic

/-- The error a call of `maybeUpdateFile` returned, if any. -/
def FileResult.err : FileResult → Option FileError
  | .ret e _ => e
  | .panic => none

/-- What stops `main` before the scan: `os.ReadFile` or `yaml.Unmarshal` fails
on the registry document. -/
inductive LoadError where
  | reading (e : IOError)
  | parsing
  deriving DecidableEq

/-- How the process ends: `main` returns, `os.Exit(code)`, or a panic. -/
inductive ExitStatus where
  | returned
  | exit (code : Nat)
  | panic
  deriving DecidableEq

/-- Function `main`. `loaded` is the registry as read and parsed from
`./ssot.yaml` (fields `Files` and `Constants`), or the failure of that step. -/
def main (loaded : Except LoadError SSOT) (env : Env) : ExitStatus × ScanRun :=
  match loaded with
  | .error (.reading _) => (.exit 1, ⟨[], []⟩)
  | .error .parsing => (.exit 2, ⟨[], []⟩)
  | .ok ssot0 =>
    match Initialize ssot0 with
    | (_, some _) => (.exit 1, ⟨[], []⟩)
    | (ssot, none) =>
      if (scanFiles ssot env 0 ssot.Files).panicked then
        (.panic, scanFiles ssot env 0 ssot.Files)
      else if (scanFiles ssot env 0 ssot.Files).errs.length != 0 then
        (.exit 3, scanFiles ssot env 0 ssot.Files)
      else (.returned, scanFiles ssot env 0 ssot.Files)

/-- An environment in which every file reads as given by an association list
(a missing file gives a read error) and every write succeeds. -/
def envOf (files : List (Str × Str)) : Env := fun _ fp =>
  (match files.lookup fp with
    | some content => .ok content
    | none => .error ⟨"no such file".toList⟩, none)

/-! ## Theorems -/

/-! ### The matcher agrees with the declarative reading -/

namespace Regexp

theorem prevAfter_nil (prev : Option Char) : prevAfter prev [] = prev := rfl

theorem prevAfter_singleton (prev : Option Char) (c : Char) : prevAfter prev [c] = some c := rfl

theorem prevAfter_append (prev : Option Char) (w1 w2 : Str) :
    prevAfter prev (w1 ++ w2) = prevAfter (prevAfter prev w1) w2 := by
  unfold prevAfter
  rcases List.eq_nil_or_concat w2 with rfl | ⟨l, c, rfl⟩
  · simp
  · simp [← List.append_assoc]

theorem orElse_isSome {α : Type} (a : Option α) (b : Unit → Option α) :
    (a.orElse b).isSome = true ↔ a.isSome = true ∨ (b ()).isSome = true := by
  cases a <;> simp [Option.orElse]

/-- What `stepChar` accepts. -/
theorem stepChar_isSome (p : Char → Bool) (k : Cont) (prev : Option Char) (i : Nat)
    (input : Str) (caps : Caps) :
    (stepChar p k prev i input caps).isSome = true ↔
      ∃ d rest, input = d :: rest ∧ p d = true ∧ (k (some d) (i + 1) rest caps).isSome = true := by
  cases input with
  | nil => simp [stepChar]
  | cons c rest =>
    by_cases h : p c = true
    · simp only [stepChar, h, if_true]
      constructor
      · intro hk
        exact ⟨c, rest, rfl, h, hk⟩
      · rintro ⟨d, rest', heq, -, hk⟩
        cases heq
        exact hk
    · simp only [stepChar, h, Bool.false_eq_true, if_false, Option.isSome_none, false_iff]
      rintro ⟨d, rest', heq, hp, -⟩
      cases heq
      exact h hp

/-- A continuation whose success is described without the registers is
register-free. -/
theorem CapsFree.of_iff {k : Cont} {Q : Option Char → Nat → Str → Prop}
    (h : ∀ prev i input caps, (k prev i input caps).isSome = true ↔ Q prev i input) :
    CapsFree k := by
  intro prev i rest c1 c2
  rw [Bool.eq_iff_iff, h, h]

theorem RunSpec.capsFree {P : Option Char → Nat → Str → Str → Prop} {body : Cont → Cont}
    (h : RunSpec P body) {k : Cont} (hk : CapsFree k) : CapsFree (body k) :=
  CapsFree.of_iff (fun prev i input caps => h k hk prev i input caps)

/-- The loop of a star is register-free. -/
theorem loopStar_capsFree (g : Bool) (body : Cont → Cont)
    (hbody : ∀ k, CapsFree k → CapsFree (body k)) (k : Cont) (hk : CapsFree k) (fuel : Nat) :
    CapsFree (loopStar g body k fuel) := by
  induction fuel with
  | zero => exact hk
  | succ n ih =>
    intro prev i rest c1 c2
    have hkk : CapsFree (fun prev' i' rest' caps' =>
        if i < i' then loopStar g body k n prev' i' rest' caps' else none) := by
      intro p j r d1 d2
      by_cases hlt : i < j
      · simp only [hlt, if_true]
        exact ih p j r d1 d2
      · simp only [hlt, if_false]
    have h1 := hbody _ hkk prev i rest c1 c2
    have h2 := hk prev i rest c1 c2
    rw [Bool.eq_iff_iff]
    unfold loopStar
    cases g
    · simp only [Bool.false_eq_true, if_false, orElse_isSome]
      rw [h1, h2]
    · simp only [if_true, orElse_isSome]
      rw [h1, h2]

/-- The loop of a star succeeds exactly on a sequence of non-empty matches of
its body followed by a rest accepted by the continuation. -/
theorem loopStar_isSome (P : Option Char → Nat → Str → Str → Prop) (g : Bool)
    (body : Cont → Cont) (hbody : RunSpec P body) (k : Cont) (hk : CapsFree k) :
    ∀ fuel prev i input caps, input.length ≤ fuel →
      ((loopStar g body k fuel prev i input caps).isSome = true ↔
        ∃ w rest, input = w ++ rest ∧ StarM P prev i w rest ∧
          (k (prevAfter prev w) (i + w.length) rest []).isSome = true) := by
  intro fuel
  induction fuel with
  | zero =>
    intro prev i input caps hlen
    have hnil : input = [] := List.length_eq_zero.mp (Nat.le_zero.mp hlen)
    subst hnil
    simp only [loopStar]
    constructor
    · intro h
      refine ⟨[], [], rfl, StarM.nil rfl, ?_⟩
      rw [hk _ _ _ [] caps]
      exact h
    · rintro ⟨w, rest, heq, -, h⟩
      have hw : w = [] := (List.append_eq_nil.mp heq.symm).1
      have hr : rest = [] := (List.append_eq_nil.mp heq.symm).2
      subst hw hr
      rw [hk _ _ _ caps []]
      exact h
  | succ n ih =>
    intro prev i input caps hlen
    have hkkfree : CapsFree (fun prev' i' rest' caps' =>
        if i < i' then loopStar g body k n prev' i' rest' caps' else none) := by
      intro p j r d1 d2
      by_cases hlt : i < j
      · simp only [hlt, if_true]
        exact loopStar_capsFree g body (fun k hk => hbody.capsFree hk) k hk n p j r d1 d2
      · simp only [hlt, if_false]
    have hb := hbody _ hkkfree prev i input caps
    have key : ((body (fun prev' i' rest' caps' =>
          if i < i' then loopStar g body k n prev' i' rest' caps' else none)
          prev i input caps).isSome = true ∨ (k prev i input caps).isSome = true) ↔
        ∃ w rest, input = w ++ rest ∧ StarM P prev i w rest ∧
          (k (prevAfter prev w) (i + w.length) rest []).isSome = true := by
      rw [hb]
      constructor
      · rintro (⟨w1, rest1, heq, hP, hkk⟩ | hk0)
        · by_cases hlt : i < i + w1.length
          · simp only [hlt, if_true] at hkk
            have hw1 : w1 ≠ [] := by
              intro h0
              subst h0
              simp at hlt
            have hlen1 : rest1.length ≤ n := by
              have : w1.length ≠ 0 := fun h0 => hw1 (List.length_eq_zero.mp h0)
              subst heq
              simp only [List.length_append] at hlen
              omega
            obtain ⟨w2, rest, heq2, hS, hk2⟩ := (ih _ _ _ _ hlen1).mp hkk
            subst heq2
            refine ⟨w1 ++ w2, rest, by rw [heq, List.append_assoc], ?_, ?_⟩
            · exact StarM.cons w1 w2 rfl hw1 hP hS
            · rw [prevAfter_append, List.length_append, ← Nat.add_assoc]
              exact hk2
          · simp only [hlt, if_false, Option.isSome_none] at hkk
            cases hkk
        · refine ⟨[], input, rfl, StarM.nil rfl, ?_⟩
          rw [hk _ _ _ [] caps]
          exact hk0
      · rintro ⟨w, rest, heq, hS, hk2⟩
        cases hS with
        | nil hw =>
          subst hw
          right
          rw [hk _ _ _ caps []]
          simpa [heq, prevAfter_nil] using hk2
        | cons w1 w2 hw hw1 hP hS =>
          left
          subst hw
          refine ⟨w1, w2 ++ rest, by rw [heq, List.append_assoc], hP, ?_⟩
          have hpos : 0 < w1.length := List.length_pos.mpr hw1
          have hlt : i < i + w1.length := by omega
          simp only [hlt, if_true]
          have hlen1 : (w2 ++ rest).length ≤ n := by
            subst heq
            simp only [List.length_append] at hlen ⊢
            omega
          refine (ih _ _ _ _ hlen1).mpr ⟨w2, rest, rfl, hS, ?_⟩
          rw [prevAfter_append, List.length_append, ← Nat.add_assoc] at hk2
          exact hk2
    unfold loopStar
    cases g
    · simp only [Bool.false_eq_true, if_false, orElse_isSome]
      rw [← key]
      exact Or.comm
    · simp only [if_true, orElse_isSome]
      exact key

/-- A pattern that consumes nothing and tests a condition on its context. -/
theorem guard_spec (P : Option Char → Nat → Str → Str → Prop)
    (c : Option Char → Nat → Str → Bool)
    (hP : ∀ prev i w rest, P prev i w rest ↔ w = [] ∧ c prev i rest = true) :
    RunSpec P (fun k prev i rest caps => if c prev i rest then k prev i rest caps else none) := by
  intro k hk prev i input caps
  constructor
  · intro h
    by_cases hc : c prev i input = true
    · simp only [hc, if_true] at h
      refine ⟨[], input, rfl, (hP _ _ _ _).mpr ⟨rfl, hc⟩, ?_⟩
      rw [hk _ _ _ [] caps]
      exact h
    · simp only [hc, Bool.false_eq_true, if_false, Option.isSome_none] at h
  · rintro ⟨w, rest, heq, hm, h⟩
    obtain ⟨hw, hc⟩ := (hP _ _ _ _).mp hm
    subst hw
    simp only [List.nil_append] at heq
    subst heq
    simp only [hc, if_true]
    rw [hk _ _ _ caps []]
    exact h

/-- A pattern that consumes one character of a given set. -/
theorem stepChar_spec (P : Option Char → Nat → Str → Str → Prop) (p : Char → Bool)
    (hP : ∀ prev i w rest, P prev i w rest ↔ ∃ d, w = [d] ∧ p d = true) :
    RunSpec P (stepChar p) := by
  intro k hk prev i input caps
  rw [stepChar_isSome]
  constructor
  · rintro ⟨d, rest, heq, hp, h⟩
    refine ⟨[d], rest, by simp [heq], (hP _ _ _ _).mpr ⟨d, rfl, hp⟩, ?_⟩
    rw [hk _ _ _ [] caps]
    exact h
  · rintro ⟨w, rest, heq, hm, h⟩
    obtain ⟨d, hw, hp⟩ := (hP _ _ _ _).mp hm
    subst hw
    refine ⟨d, rest, by simp [heq], hp, ?_⟩
    rw [hk _ _ _ caps []]
    exact h

/-- Soundness and completeness of the matcher: `run r k` succeeds exactly when
the input splits into a text that `r` matches and a rest that `k` accepts. -/
theorem run_isSome (r : Re) : RunSpec (Matches r) (run r) := by
  induction r with
  | emp =>
    intro k hk prev i input caps
    simp only [run, Matches]
    constructor
    · intro h
      refine ⟨[], input, rfl, rfl, ?_⟩
      rw [hk _ _ _ [] caps]
      exact h
    · rintro ⟨w, rest, heq, hw, h⟩
      subst hw
      simp only [List.nil_append] at heq
      subst heq
      rw [hk _ _ _ caps []]
      exact h
  | lit c =>
    refine stepChar_spec _ _ ?_
    intro prev i w rest
    simp only [Matches]
    constructor
    · intro h
      exact ⟨c, h, by simp⟩
    · rintro ⟨d, hw, hd⟩
      have : d = c := by simpa using hd
      rw [hw, this]
  | cls neg items =>
    refine stepChar_spec _ _ ?_
    intro prev i w rest
    simp only [Matches]
  | dot =>
    refine stepChar_spec _ _ ?_
    intro prev i w rest
    simp only [Matches]
  | bot =>
    refine guard_spec _ (fun _ i _ => i == 0) ?_
    intro prev i w rest
    simp only [Matches, beq_iff_eq]
  | eot =>
    refine guard_spec _ (fun _ _ rest => rest.isEmpty) ?_
    intro prev i w rest
    simp only [Matches, List.isEmpty_iff]
  | wordB neg =>
    refine guard_spec _ (fun prev _ rest => (isWordAt prev != isWordAt rest.head?) != neg) ?_
    intro prev i w rest
    simp only [Matches]
  | cap n r ih =>
    intro k hk prev i input caps
    simp only [run, Matches]
    have hk' : CapsFree (fun prev' i' rest' caps' => k prev' i' rest' ((n, i, i') :: caps')) := by
      intro p j rr c1 c2
      exact hk _ _ _ _ _
    rw [ih _ hk' prev i input caps]
    constructor
    · rintro ⟨w, rest, heq, hm, h⟩
      refine ⟨w, rest, heq, hm, ?_⟩
      rw [hk _ _ _ [] [(n, i, i + w.length)]]
      exact h
    · rintro ⟨w, rest, heq, hm, h⟩
      refine ⟨w, rest, heq, hm, ?_⟩
      rw [hk _ _ _ [(n, i, i + w.length)] []]
      exact h
  | cat a b iha ihb =>
    intro k hk prev i input caps
    simp only [run, Matches]
    rw [iha _ (ihb.capsFree hk) prev i input caps]
    constructor
    · rintro ⟨w1, rest1, heq, ha, h⟩
      obtain ⟨w2, rest, heq2, hb, h2⟩ := (ihb k hk _ _ _ _).mp h
      subst heq2
      refine ⟨w1 ++ w2, rest, by rw [heq, List.append_assoc], ⟨w1, w2, rfl, ha, hb⟩, ?_⟩
      rw [prevAfter_append, List.length_append, ← Nat.add_assoc]
      exact h2
    · rintro ⟨w, rest, heq, ⟨w1, w2, hw, ha, hb⟩, h⟩
      subst hw
      refine ⟨w1, w2 ++ rest, by rw [heq, List.append_assoc], ha, ?_⟩
      refine (ihb k hk _ _ _ _).mpr ⟨w2, rest, rfl, hb, ?_⟩
      rw [prevAfter_append, List.length_append, ← Nat.add_assoc] at h
      exact h
  | alt a b iha ihb =>
    intro k hk prev i input caps
    simp only [run, Matches, orElse_isSome]
    rw [iha k hk, ihb k hk]
    constructor
    · rintro (⟨w, rest, heq, hm, h⟩ | ⟨w, rest, heq, hm, h⟩)
      · exact ⟨w, rest, heq, Or.inl hm, h⟩
      · exact ⟨w, rest, heq, Or.inr hm, h⟩
    · rintro ⟨w, rest, heq, hm | hm, h⟩
      · exact Or.inl ⟨w, rest, heq, hm, h⟩
      · exact Or.inr ⟨w, rest, heq, hm, h⟩
  | star g r ih =>
    intro k hk prev i input caps
    simp only [run, Matches]
    exact loopStar_isSome (Matches r) g (run r) ih k hk _ prev i input caps (Nat.le_refl _)
  | plus g r ih =>
    intro k hk prev i input caps
    simp only [run, Matches]
    have hloop : ∀ prev' i' rest' caps',
        (loopStar g (run r) k rest'.length prev' i' rest' caps').isSome = true ↔
          ∃ w rest, rest' = w ++ rest ∧ StarM (Matches r) prev' i' w rest ∧
            (k (prevAfter prev' w) (i' + w.length) rest []).isSome = true :=
      fun prev' i' rest' caps' =>
        loopStar_isSome (Matches r) g (run r) ih k hk _ prev' i' rest' caps' (Nat.le_refl _)
    have hk' : CapsFree (fun prev' i' rest' caps' =>
        loopStar g (run r) k rest'.length prev' i' rest' caps') :=
      CapsFree.of_iff hloop
    rw [ih _ hk' prev i input caps]
    constructor
    · rintro ⟨w1, rest1, heq, hm, h⟩
      obtain ⟨w2, rest, heq2, hS, h2⟩ := (hloop _ _ _ _).mp h
      subst heq2
      refine ⟨w1 ++ w2, rest, by rw [heq, List.append_assoc], ⟨w1, w2, rfl, hm, hS⟩, ?_⟩
      rw [prevAfter_append, List.length_append, ← Nat.add_assoc]
      exact h2
    · rintro ⟨w, rest, heq, ⟨w1, w2, hw, hm, hS⟩, h⟩
      subst hw
      refine ⟨w1, w2 ++ rest, by rw [heq, List.append_assoc], hm, ?_⟩
      refine (hloop _ _ _ _).mpr ⟨w2, rest, rfl, hS, ?_⟩
      rw [prevAfter_append, List.length_append, ← Nat.add_assoc] at h
      exact h
  | opt g r ih =>
    intro k hk prev i input caps
    have key : ((run r k prev i input caps).isSome = true ∨ (k prev i input caps).isSome = true) ↔
        ∃ w rest, input = w ++ rest ∧ (w = [] ∨ Matches r prev i w rest) ∧
          (k (prevAfter prev w) (i + w.length) rest []).isSome = true := by
      rw [ih k hk]
      constructor
      · rintro (⟨w, rest, heq, hm, h⟩ | h)
        · exact ⟨w, rest, heq, Or.inr hm, h⟩
        · refine ⟨[], input, rfl, Or.inl rfl, ?_⟩
          rw [hk _ _ _ [] caps]
          exact h
      · rintro ⟨w, rest, heq, hw | hm, h⟩
        · subst hw
          simp only [List.nil_append] at heq
          subst heq
          right
          rw [hk _ _ _ caps []]
          exact h
        · exact Or.inl ⟨w, rest, heq, hm, h⟩
    simp only [run, Matches]
    cases g
    · simp only [Bool.false_eq_true, if_false, orElse_isSome]
      rw [← key]
      exact Or.comm
    · simp only [if_true, orElse_isSome]
      exact key

theorem accept_capsFree : CapsFree accept := fun _ _ _ _ _ => rfl

/-- The search succeeds exactly when the pattern matches at some position from
the current one on. -/
theorem searchAt_isSome (r : Re) (input : Str) : ∀ (prev : Option Char) (i : Nat),
    (searchAt r prev i input).isSome = true ↔
      ∃ pre w rest, input = pre ++ (w ++ rest) ∧
        Matches r (prevAfter prev pre) (i + pre.length) w rest := by
  have hrun : ∀ prev i s, (run r accept prev i s []).isSome = true ↔
      ∃ w rest, s = w ++ rest ∧ Matches r prev i w rest := by
    intro prev i s
    rw [run_isSome r accept accept_capsFree]
    simp [accept]
  induction input with
  | nil =>
    intro prev i
    have h1 : (searchAt r prev i []).isSome = (run r accept prev i [] []).isSome := by
      unfold searchAt
      cases run r accept prev i [] [] with
      | none => rfl
      | some x => rfl
    rw [h1, hrun]
    constructor
    · rintro ⟨w, rest, heq, hm⟩
      exact ⟨[], w, rest, heq, hm⟩
    · rintro ⟨pre, w, rest, heq, hm⟩
      have hpre : pre = [] := (List.append_eq_nil.mp heq.symm).1
      subst hpre
      exact ⟨w, rest, heq, hm⟩
  | cons c t ih =>
    intro prev i
    have h1 : (searchAt r prev i (c :: t)).isSome = true ↔
        (run r accept prev i (c :: t) []).isSome = true ∨
          (searchAt r (some c) (i + 1) t).isSome = true := by
      rw [searchAt]
      cases run r accept prev i (c :: t) [] with
      | none => simp
      | some x => simp
    rw [h1, hrun, ih]
    constructor
    · rintro (⟨w, rest, heq, hm⟩ | ⟨pre, w, rest, heq, hm⟩)
      · exact ⟨[], w, rest, heq, hm⟩
      · refine ⟨c :: pre, w, rest, by rw [heq]; rfl, ?_⟩
        have e1 : prevAfter prev (c :: pre) = prevAfter (some c) pre := by
          have := prevAfter_append prev [c] pre
          simpa using this
        have e2 : i + (c :: pre).length = i + 1 + pre.length := by
          simp only [List.length_cons]; omega
        rw [e1, e2]
        exact hm
    · rintro ⟨pre, w, rest, heq, hm⟩
      cases pre with
      | nil => exact Or.inl ⟨w, rest, heq, hm⟩
      | cons d pre' =>
        right
        have hd : c = d ∧ t = pre' ++ (w ++ rest) := by
          simpa using heq
        obtain ⟨hd1, hd2⟩ := hd
        subst hd1
        refine ⟨pre', w, rest, hd2, ?_⟩
        have e1 : prevAfter prev (c :: pre') = prevAfter (some c) pre' := by
          have := prevAfter_append prev [c] pre'
          simpa using this
        have e2 : i + (c :: pre').length = i + 1 + pre'.length := by
          simp only [List.length_cons]; omega
        rw [e1, e2] at hm
        exact hm

/-- `FindStringSubmatch` returns a match exactly when the pattern has one. -/
theorem findStringSubmatch_isSome (re : Regexp) (s : Str) :
    (re.findStringSubmatch s).isSome = true ↔ HasMatch re.re s := by
  have h0 : (re.findStringSubmatch s).isSome = (searchAt re.re none 0 s).isSome := by
    unfold findStringSubmatch exec
    cases s <;> simp only [seek] <;> cases searchAt re.re none 0 _ <;> rfl
  rw [h0, searchAt_isSome]
  unfold HasMatch
  simp

theorem findStringSubmatch_none (re : Regexp) (s : Str) :
    re.findStringSubmatch s = none ↔ ¬ HasMatch re.re s := by
  rw [← findStringSubmatch_isSome]
  cases re.findStringSubmatch s <;> simp

/-- An iteration whose body does not look ahead does not either. -/
theorem StarM.ignores_rest {P : Option Char → Nat → Str → Str → Prop}
    (hP : ∀ prev i w rest rest', P prev i w rest → P prev i w rest')
    {prev : Option Char} {i : Nat} {w rest : Str} (h : StarM P prev i w rest) (rest' : Str) :
    StarM P prev i w rest' := by
  induction h with
  | nil hw => exact StarM.nil hw
  | cons w1 w2 hw hw1 hp _ ih => exact StarM.cons w1 w2 hw hw1 (hP _ _ _ _ _ hp) ih

/-- A pattern without `$` and word boundary matches a text whatever follows. -/
theorem Matches.ignores_following (r : Re) (hr : r.noLook = true) :
    ∀ prev i w rest rest', Matches r prev i w rest → Matches r prev i w rest' := by
  induction r with
  | emp => intro prev i w rest rest' h; exact h
  | lit c => intro prev i w rest rest' h; exact h
  | cls neg items => intro prev i w rest rest' h; exact h
  | dot => intro prev i w rest rest' h; exact h
  | bot => intro prev i w rest rest' h; exact h
  | eot => simp [Re.noLook] at hr
  | wordB neg => simp [Re.noLook] at hr
  | cap n r ih =>
    intro prev i w rest rest' h
    exact ih (by simpa [Re.noLook] using hr) _ _ _ _ _ h
  | cat a b iha ihb =>
    have hab : a.noLook = true ∧ b.noLook = true := by simpa [Re.noLook] using hr
    rintro prev i w rest rest' ⟨w1, w2, hw, ha, hb⟩
    exact ⟨w1, w2, hw, iha hab.1 _ _ _ _ _ ha, ihb hab.2 _ _ _ _ _ hb⟩
  | alt a b iha ihb =>
    have hab : a.noLook = true ∧ b.noLook = true := by simpa [Re.noLook] using hr
    rintro prev i w rest rest' (h | h)
    · exact Or.inl (iha hab.1 _ _ _ _ _ h)
    · exact Or.inr (ihb hab.2 _ _ _ _ _ h)
  | star g r ih =>
    intro prev i w rest rest' h
    exact StarM.ignores_rest (ih (by simpa [Re.noLook] using hr)) h rest'
  | plus g r ih =>
    have hr' : r.noLook = true := by simpa [Re.noLook] using hr
    rintro prev i w rest rest' ⟨w1, w2, hw, h1, h2⟩
    exact ⟨w1, w2, hw, ih hr' _ _ _ _ _ h1, StarM.ignores_rest (ih hr') h2 rest'⟩
  | opt g r ih =>
    rintro prev i w rest rest' (h | h)
    · exact Or.inl h
    · exact Or.inr (ih (by simpa [Re.noLook] using hr) _ _ _ _ _ h)

/-- A run of `\s` characters is matched by `\s*`. -/
theorem starM_spaces (ws : Str) (hws : ∀ c ∈ ws, isPerlSpace c = true) :
    ∀ prev i rest, StarM (Matches spaceClass) prev i ws rest := by
  induction ws with
  | nil => intro prev i rest; exact StarM.nil rfl
  | cons c t ih =>
    intro prev i rest
    refine StarM.cons [c] t rfl (by simp) ?_ (ih (fun d hd => hws d (List.mem_cons_of_mem _ hd)) _ _ _)
    refine ⟨c, rfl, ?_⟩
    have := hws c (List.mem_cons_self _ _)
    simp [classMatches, ClassItem.matches, perlMatch, this]

/-- A text matched by `\s*` is still matched with more `\s` characters after
it. -/
theorem starM_spaces_append {prev : Option Char} {i : Nat} {s rest : Str}
    (h : StarM (Matches spaceClass) prev i s rest) (ws : Str)
    (hws : ∀ c ∈ ws, isPerlSpace c = true) (rest' : Str) :
    StarM (Matches spaceClass) prev i (s ++ ws) rest' := by
  induction h with
  | nil hw => subst hw; exact starM_spaces ws hws _ _ _
  | cons w1 w2 hw hw1 hp _ ih =>
    subst hw
    rw [List.append_assoc]
    exact StarM.cons w1 (w2 ++ ws) rfl hw1 hp ih

/-- A pattern of the form `body\s*$` that has a match in a text has one in the
text followed by spaces. -/
theorem hasMatch_append_spaces (r : Re) (hr : r.endsWithSpaces = true) (t ws : Str)
    (hws : ∀ c ∈ ws, isPerlSpace c = true) (h : HasMatch r t) : HasMatch r (t ++ ws) := by
  unfold Re.endsWithSpaces at hr
  simp only [Bool.and_eq_true, decide_eq_true_eq] at hr
  obtain ⟨hshape, hbody⟩ := hr
  obtain ⟨pre, w, rest, heq, hm⟩ := h
  rw [hshape] at hm ⊢
  simp only [Matches] at hm
  obtain ⟨w1, w2, hw, ⟨w0, s, hw1, h0, hs⟩, hw2, hrest⟩ := hm
  subst hw2 hrest hw1 hw
  refine ⟨pre, w0 ++ (s ++ ws), [], ?_, ?_⟩
  · rw [heq]; simp
  · show Matches (.cat (.cat r.body (.star true spaceClass)) .eot) _ _ _ _
    unfold Matches
    refine ⟨w0 ++ (s ++ ws), [], by simp, ?_, ?_⟩
    · unfold Matches
      refine ⟨w0, s ++ ws, rfl, ?_, ?_⟩
      · exact Matches.ignores_following _ hbody _ _ _ _ _ h0
      · unfold Matches
        exact starM_spaces_append hs ws hws _
    · unfold Matches
      exact ⟨rfl, rfl⟩

end Regexp

/-! ### The program -/

theorem compile_regexSSOTFileMatch :
    Regexp.compile regexSSOTFileMatchSource = .ok regexSSOTFileMatch := by decide!

theorem directiveRegex_go : directiveRegex ".go".toList = some goLineRegex := by decide!

theorem trimRight_append_of_not_mem (a : Str) (c : Char) (b cut : Str)
    (hc : cut.contains c = false) :
    trimRight (a ++ c :: b) cut = a ++ c :: trimRight b cut := by
  induction b using List.reverseRecOn with
  | nil =>
    have h1 : trimRight (a ++ [c]) cut = a ++ [c] := by
      unfold trimRight
      rw [List.rdropWhile_concat_neg]
      simp only [hc, Bool.false_eq_true, not_false_eq_true]
    have h2 : trimRight ([] : Str) cut = [] := by simp [trimRight]
    rw [h1, h2]
  | append_singleton b x ih =>
    have e1 : a ++ c :: (b ++ [x]) = (a ++ c :: b) ++ [x] := by simp
    unfold trimRight at ih ⊢
    rw [e1, List.rdropWhile_concat, List.rdropWhile_concat]
    by_cases hx : cut.contains x = true
    · simp only [hx, if_true]
      exact ih
    · simp only [hx, if_false]
      simp

theorem trimRight_idem (s cut : Str) : trimRight (trimRight s cut) cut = trimRight s cut := by
  unfold trimRight
  exact List.rdropWhile_idempotent _ _

/-- The loop stops at the first line whose rewrite fails: the lines before it
are the only other ones handed to `maybeUpdateLine`. -/
theorem updateLines_failed (ssot : SSOT) (re : Option Regexp) (commentChars : Str)
    (pre : List Str) (l : Str) (post : List Str) (line : Str) (e : LineError)
    (hpre : ∀ x ∈ pre, ∃ y, maybeUpdateLine ssot re commentChars x = .ret y none)
    (hl : maybeUpdateLine ssot re commentChars l = .ret line (some e)) (buf : Str) :
    updateLines ssot re commentChars (pre ++ l :: post) buf = (.failed line e, pre ++ [l]) := by
  induction pre generalizing buf with
  | nil => simp [updateLines, hl]
  | cons x xs ih =>
    obtain ⟨y, hy⟩ := hpre x (List.mem_cons_self _ _)
    have hxs : ∀ z ∈ xs, ∃ y, maybeUpdateLine ssot re commentChars z = .ret y none :=
      fun z hz => hpre z (List.mem_cons_of_mem _ hz)
    simp [updateLines, hy, ih hxs]

/-- A loop that ends with a buffer has rewritten every line without error. -/
theorem updateLines_done (ssot : SSOT) (re : Option Regexp) (commentChars : Str)
    (lines : List Str) (buf updated : Str)
    (h : (updateLines ssot re commentChars lines buf).1 = .done updated) :
    (∀ x ∈ lines, ∃ y, maybeUpdateLine ssot re commentChars x = .ret y none) ∧
      (updateLines ssot re commentChars lines buf).2 = lines := by
  induction lines generalizing buf with
  | nil => simp [updateLines]
  | cons x xs ih =>
    unfold updateLines at h ⊢
    cases hx : maybeUpdateLine ssot re commentChars x with
    | panic => rw [hx] at h; simp at h
    | ret y err =>
      cases err with
      | some e => rw [hx] at h; simp at h
      | none =>
        rw [hx] at h
        simp only at h
        obtain ⟨h1, h2⟩ := ih _ h
        refine ⟨?_, ?_⟩
        · intro z hz
          rcases List.mem_cons.mp hz with rfl | hz
          · exact ⟨y, hx⟩
          · exact h1 z hz
        · simp only [h2]

/-- Whatever `finish` writes is the buffer, which then differs from the
content and is not blank. -/
theorem finish_written (fp content updated : Str) (tooLong : Bool) (writeErr : Option IOError)
    (w : Str) (h : (finish fp content updated tooLong writeErr).written = some w) :
    w = updated ∧ tooLong = false ∧ updated.all isSpace = false ∧ content ≠ updated := by
  unfold finish at h
  by_cases h1 : tooLong = true
  · simp [h1, FileResult.written] at h
  · by_cases h2 : updated.all isSpace = true
    · simp [h1, h2, FileResult.written] at h
    · by_cases h3 : content = updated
      · simp [h1, h2, h3, FileResult.written] at h
      · have h3b : (content == updated) = false := by simpa using h3
        rw [if_neg h1, if_neg h2, h3b] at h
        refine ⟨?_, by simpa using h1, by simpa using h2, h3⟩
        cases writeErr <;> simp [FileResult.written] at h <;> exact h.symm

/-- A run that writes has passed the screener, found the regex and the marker
of the extension, rewritten every scanned line without error and written the
buffer. -/
theorem written_some (ssot : SSOT) (fp content : Str) (writeErr : Option IOError) (w : Str)
    (h : (maybeUpdateFile ssot fp (.ok content) writeErr).result.written = some w) :
    ∃ re commentChars, ssot.LineMatchMap.lookup (filepathExt fp) = some re ∧
      commentPrefixMap.lookup (filepathExt fp) = some commentChars ∧
      (updateLines ssot re commentChars (scanLines content).1 []).1 = .done w ∧
      (scanLines content).2 = false ∧ w.all isSpace = false ∧ content ≠ w := by
  unfold maybeUpdateFile at h
  simp only at h
  by_cases hs : regexSSOTFileMatch.matchString content = true
  · simp only [hs, Bool.not_true, Bool.false_eq_true, if_false] at h
    cases hre : ssot.LineMatchMap.lookup (filepathExt fp) with
    | none => rw [hre] at h; simp [FileResult.written] at h
    | some re =>
      cases hm : commentPrefixMap.lookup (filepathExt fp) with
      | none => rw [hre, hm] at h; simp [FileResult.written] at h
      | some commentChars =>
        rw [hre, hm] at h
        simp only at h
        cases hloop : (updateLines ssot re commentChars (scanLines content).1 []).1 with
        | panic => rw [hloop] at h; simp [FileResult.written] at h
        | failed line e => rw [hloop] at h; simp [FileResult.written] at h
        | done updated =>
          rw [hloop] at h
          simp only at h
          obtain ⟨h1, h2, h3, h4⟩ := finish_written _ _ _ _ _ _ h
          subst h1
          exact ⟨re, commentChars, rfl, rfl, hloop, h2, h3, h4⟩
  · have hs' : regexSSOTFileMatch.matchString content = false := by simpa using hs
    simp [hs', FileResult.written] at h

theorem trimRight_decomp (s cut : Str) :
    ∃ ws, s = trimRight s cut ++ ws ∧ ∀ c ∈ ws, cut.contains c = true := by
  induction s using List.reverseRecOn with
  | nil => exact ⟨[], by simp [trimRight], by simp⟩
  | append_singleton l x ih =>
    obtain ⟨ws, h1, h2⟩ := ih
    unfold trimRight at h1 ⊢
    rw [List.rdropWhile_concat]
    by_cases hx : cut.contains x = true
    · simp only [hx, if_true]
      refine ⟨ws ++ [x], ?_, ?_⟩
      · rw [← List.append_assoc, ← h1]
      · intro c hc
        rcases List.mem_append.mp hc with hc | hc
        · exact h2 c hc
        · rw [List.mem_singleton.mp hc]; exact hx
    · simp only [hx, Bool.false_eq_true, if_false]
      exact ⟨[], by simp, by simp⟩

theorem lookup_some_mem {β : Type} (k : Str) (v : β) (m : List (Str × β))
    (h : m.lookup k = some v) : ∃ k', (k', v) ∈ m := by
  induction m with
  | nil => simp [List.lookup] at h
  | cons e m ih =>
    obtain ⟨k0, v0⟩ := e
    simp only [List.lookup] at h
    split at h
    · cases h
      exact ⟨k0, List.mem_cons_self _ _⟩
    · obtain ⟨k', hk'⟩ := ih h
      exact ⟨k', List.mem_cons_of_mem _ hk'⟩

/-- Every directive regex has the form `body\s*$`, with a body that does not
look ahead. -/
theorem directiveRegex_endsWithSpaces (ext : Str) (re : Regexp)
    (h : directiveRegex ext = some re) : re.re.endsWithSpaces = true := by
  unfold directiveRegex lineMatchRegex at h
  rw [show List.lookup ext ([] : List (Str × Option Regexp)) = none from rfl] at h
  simp only at h
  cases hm : commentPrefixMap.lookup ext with
  | none => rw [hm] at h; simp at h
  | some marker =>
    rw [hm] at h
    simp only at h
    obtain ⟨k', hk'⟩ := lookup_some_mem _ _ _ hm
    have hmarker : marker = "--".toList ∨ marker = "//".toList := by
      simp only [commentPrefixMap, List.mem_cons, Prod.mk.injEq, List.mem_singleton,
        List.not_mem_nil, or_false] at hk'
      rcases hk' with h1 | h1 | h1
      · exact Or.inl h1.2
      · exact Or.inr h1.2
      · exact Or.inr h1.2
    have hall : ∀ m, m = "--".toList ∨ m = "//".toList →
        (match Regexp.compile (lineMatchSource m) with
          | .ok r => r.re.endsWithSpaces
          | .error _ => true) = true := by
      intro m hmm
      rcases hmm with rfl | rfl <;> decide!
    have := hall marker hmarker
    cases hc : Regexp.compile (lineMatchSource marker) with
    | error e => rw [hc] at h; simp at h
    | ok r =>
      rw [hc] at h this
      simp only [Option.some.injEq] at h
      subst h
      exact this

theorem trimSet_spaces (c : Char) (h : trimSet.contains c = true) :
    Regexp.isPerlSpace c = true := by
  have : c = ' ' ∨ c = '\t' := by simpa [trimSet] using h
  rcases this with rfl | rfl <;> decide

/-- A line that no directive regex matches is still not matched once its
trailing spaces and tabs are removed. -/
theorem trimRight_not_directive (ext : Str) (re : Regexp) (line : Str)
    (hre : directiveRegex ext = some re) (h : re.findStringSubmatch line = none) :
    re.findStringSubmatch (trimRight line trimSet) = none := by
  rw [Regexp.findStringSubmatch_none] at h ⊢
  intro hm
  apply h
  obtain ⟨ws, h1, h2⟩ := trimRight_decomp line trimSet
  rw [h1]
  exact Regexp.hasMatch_append_spaces _ (directiveRegex_endsWithSpaces ext re hre) _ ws
    (fun c hc => trimSet_spaces c (h2 c hc)) hm

/-! ### C1: token isolation -/

/-- C1 (token isolation), evaluated at the witness of the claim. The line
`v1.2.3//ssot[version]: v(\d+\.\d+\.\d+)` matches the directive regex with code
prefix `v1.2.3`, the value regex matches the code prefix (whole match `v1.2.3`,
group `1.2.3`, nothing before or after) and the registry maps `version` to
`2.0.0`; `maybeUpdateLine` returns the line unchanged, so the code prefix is
still `v1.2.3` and not `v2.0.0` (the decorated pattern asks for at least one
character on each side of the token). With text on both sides of the token
(`const V = "v1.2.3" `) the returned code prefix is `.0.0" `: the text before
the token and the `v2` of the replacement are lost. -/
theorem token_isolation_witness_diverges :
    goLineRegex.findStringSubmatch "v1.2.3//ssot[version]: v(\\d+\\.\\d+\\.\\d+)".toList =
      some ["v1.2.3//ssot[version]: v(\\d+\\.\\d+\\.\\d+)".toList, "v1.2.3".toList,
        "version".toList, "v(\\d+\\.\\d+\\.\\d+)".toList] ∧
    (Regexp.compile "v(\\d+\\.\\d+\\.\\d+)".toList).toOption.bind
        (fun r => r.findStringSubmatch "v1.2.3".toList) =
      some ["v1.2.3".toList, "1.2.3".toList] ∧
    decorateSource "v(\\d+\\.\\d+\\.\\d+)".toList =
      "^(.+?)v(\\d+\\.\\d+\\.\\d+)(.+?)$".toList ∧
    maybeUpdateLine (registry [("version".toList, "2.0.0".toList)]) (some goLineRegex)
        "//".toList "v1.2.3//ssot[version]: v(\\d+\\.\\d+\\.\\d+)".toList =
      .ret "v1.2.3//ssot[version]: v(\\d+\\.\\d+\\.\\d+)".toList none ∧
    maybeUpdateLine (registry [("version".toList, "2.0.0".toList)]) (some goLineRegex)
        "//".toList "const V = \"v1.2.3\" //ssot[version]: v(\\d+\\.\\d+\\.\\d+)".toList =
      .ret ".0.0\" //ssot[version]: v(\\d+\\.\\d+\\.\\d+)".toList none := by
  decide!

/-! ### C2: pass-through -/

/-- C2 (pass-through) fails as stated: the line `x := 1 ` (one trailing space)
does not match the directive regex, and `maybeUpdateLine` returns `x := 1`
without the trailing space. -/
theorem pass_through_counterexample :
    goLineRegex.findStringSubmatch "x := 1 ".toList = none ∧
    maybeUpdateLine (registry []) (some goLineRegex) "//".toList "x := 1 ".toList =
      .ret "x := 1".toList none ∧
    "x := 1".toList ≠ "x := 1 ".toList := by
  decide!

/-- C2 (pass-through), amended: a line that does not match the directive regex
is returned without error and with its trailing spaces and tabs removed; it is
returned unchanged when it does not end in a space or a tab. -/
theorem pass_through_trimmed (ssot : SSOT) (re : Regexp) (commentChars line : Str)
    (h : re.findStringSubmatch line = none) :
    maybeUpdateLine ssot (some re) commentChars line = .ret (trimRight line trimSet) none ∧
    ((∀ c, line.getLast? = some c → c ≠ ' ' ∧ c ≠ '\t') →
      maybeUpdateLine ssot (some re) commentChars line = .ret line none) := by
  have h1 : maybeUpdateLine ssot (some re) commentChars line =
      .ret (trimRight line trimSet) none := by
    simp [maybeUpdateLine, h]
  refine ⟨h1, fun hlast => ?_⟩
  rw [h1]
  have : trimRight line trimSet = line := by
    unfold trimRight
    rw [List.rdropWhile_eq_self_iff]
    intro hl
    have hg : line.getLast? = some (line.getLast hl) := List.getLast?_eq_getLast _ hl
    obtain ⟨a, b⟩ := hlast _ hg
    simp [trimSet, a, b]
  rw [this]

/-- Witness of C2 at the line `x := 1 ` of a `.go` file. -/
theorem pass_through_trimmed_witness :
    maybeUpdateLine (registry []) (some goLineRegex) "//".toList "x := 1 ".toList =
      .ret (trimRight "x := 1 ".toList trimSet) none ∧
    ((∀ c, "x := 1 ".toList.getLast? = some c → c ≠ ' ' ∧ c ≠ '\t') →
      maybeUpdateLine (registry []) (some goLineRegex) "//".toList "x := 1 ".toList =
        .ret "x := 1 ".toList none) :=
  pass_through_trimmed (registry []) goLineRegex "//".toList "x := 1 ".toList (by decide!)

/-! ### A line without directive, rewritten twice -/

/-- A line that the directive regex of a supported extension does not match is
returned trimmed and without error, and the trimmed line is returned as it is,
without error, by a second call. -/
theorem pass_through_idempotent (ssot : SSOT) (ext : Str) (re : Regexp)
    (commentChars line : Str) (hre : directiveRegex ext = some re)
    (h : re.findStringSubmatch line = none) :
    maybeUpdateLine ssot (some re) commentChars line = .ret (trimRight line trimSet) none ∧
    maybeUpdateLine ssot (some re) commentChars (trimRight line trimSet) =
      .ret (trimRight line trimSet) none := by
  have h2 := trimRight_not_directive ext re line hre h
  constructor
  · simp [maybeUpdateLine, h]
  · simp [maybeUpdateLine, h2, trimRight_idem]

/-! ### C4: directive preservation -/

/-- C4 (directive preservation) fails as stated: the line
`x = "1" //ssot[k]:"(\d)"` is rewritten without error, and the directive text
`ssot[k]:"(\d)"` of the input becomes `ssot[k]: "(\d)"` in the output. -/
theorem directive_preservation_counterexample :
    maybeUpdateLine (registry [("k".toList, "2".toList)]) (some goLineRegex) "//".toList
        "x = \"1\" //ssot[k]:\"(\\d)\"".toList =
      .ret "x = \"2\" //ssot[k]: \"(\\d)\"".toList none ∧
    directiveText "x = \"1\" //ssot[k]:\"(\\d)\"".toList = "ssot[k]:\"(\\d)\"".toList ∧
    directiveText "x = \"2\" //ssot[k]: \"(\\d)\"".toList = "ssot[k]: \"(\\d)\"".toList ∧
    directiveText "x = \"2\" //ssot[k]: \"(\\d)\"".toList ≠
      directiveText "x = \"1\" //ssot[k]:\"(\\d)\"".toList := by
  decide!

/-- C4 (directive preservation), amended: in the line returned by a successful
rewrite, what follows the rewritten code prefix and the comment marker is
regenerated from the parsed parts: it is `ssot[` + constant name + `]: ` +
value regex, with trailing spaces and tabs removed. -/
theorem directive_regenerated (ssot : SSOT) (re : Regexp)
    (commentChars line out whole code constant regex : Str) (rest : List Str)
    (hdir : re.findStringSubmatch line = some (whole :: code :: constant :: regex :: rest))
    (hout : maybeUpdateLine ssot (some re) commentChars line = .ret out none) :
    ∃ newCode, out = newCode ++ commentChars ++
      trimRight ("ssot[".toList ++ constant ++ "]: ".toList ++ regex) trimSet := by
  simp only [maybeUpdateLine, hdir] at hout
  simp only [List.getElem?_cons_succ, List.getElem?_cons_zero] at hout
  cases hc : Regexp.compile regex with
  | error e => rw [hc] at hout; simp at hout
  | ok vre =>
    rw [hc] at hout
    simp only at hout
    cases hv : vre.findStringSubmatch code with
    | none => rw [hv] at hout; simp at hout
    | some vms =>
      rw [hv] at hout
      simp only at hout
      cases hk : ssot.Constants.lookup constant with
      | none => rw [hk] at hout; simp at hout
      | some newValue =>
        rw [hk] at hout
        simp only at hout
        cases h0 : vms[0]? with
        | none => rw [h0] at hout; simp at hout
        | some m0 =>
          cases h1 : vms[1]? with
          | none => rw [h0, h1] at hout; simp at hout
          | some m1 =>
            rw [h0, h1] at hout
            simp only at hout
            cases hd : decorateLineRegex regex with
            | error e => rw [hd] at hout; simp at hout
            | ok dre =>
              rw [hd] at hout
              simp only [LineResult.ret.injEq, and_true] at hout
              refine ⟨dre.replaceAllString code
                ("$1".toList ++ stringsReplace m0 m1 newValue ++ "$3".toList), ?_⟩
              rw [← hout]
              have e1 : dre.replaceAllString code
                    ("$1".toList ++ stringsReplace m0 m1 newValue ++ "$3".toList) ++
                    commentChars ++ "ssot[".toList ++ constant ++ "]: ".toList ++ regex =
                  (dre.replaceAllString code
                    ("$1".toList ++ stringsReplace m0 m1 newValue ++ "$3".toList) ++
                    commentChars) ++ 's' :: ("sot[".toList ++ constant ++ "]: ".toList ++ regex) := by
                simp
              have e2 : "ssot[".toList ++ constant ++ "]: ".toList ++ regex =
                  [] ++ 's' :: ("sot[".toList ++ constant ++ "]: ".toList ++ regex) := by
                simp
              rw [e1, e2, trimRight_append_of_not_mem _ _ _ _ (by decide),
                trimRight_append_of_not_mem _ _ _ _ (by decide)]
              simp

/-- Witness of C4 at the line of the counterexample. -/
theorem directive_regenerated_witness :
    ∃ newCode, "x = \"2\" //ssot[k]: \"(\\d)\"".toList = newCode ++ "//".toList ++
      trimRight ("ssot[".toList ++ "k".toList ++ "]: ".toList ++ "\"(\\d)\"".toList) trimSet :=
  directive_regenerated (registry [("k".toList, "2".toList)]) goLineRegex "//".toList
    "x = \"1\" //ssot[k]:\"(\\d)\"".toList "x = \"2\" //ssot[k]: \"(\\d)\"".toList
    "x = \"1\" //ssot[k]:\"(\\d)\"".toList "x = \"1\" ".toList "k".toList "\"(\\d)\"".toList []
    (by decide!) (by decide!)

/-! ### C5: a value regex without capture group -/

/-- C5 (no capture group), evaluated at a failing input: the value regex `\d`
of the line `x := 1 //ssot[k]: \d` compiles, has no capture group and matches
the code prefix `x := 1 ` (a single submatch, `1`); the constant `k` is in the
registry. `maybeUpdateLine` does not return an error: indexing the second
submatch panics. -/
theorem no_capture_group_panics :
    goLineRegex.findStringSubmatch "x := 1 //ssot[k]: \\d".toList =
      some ["x := 1 //ssot[k]: \\d".toList, "x := 1 ".toList, "k".toList, "\\d".toList] ∧
    (Regexp.compile "\\d".toList).toOption.map (fun r => r.numSubexp) = some 0 ∧
    (Regexp.compile "\\d".toList).toOption.bind
        (fun r => r.findStringSubmatch "x := 1 ".toList) = some ["1".toList] ∧
    maybeUpdateLine (registry [("k".toList, "2".toList)]) (some goLineRegex) "//".toList
        "x := 1 //ssot[k]: \\d".toList = .panic := by
  decide!

/-! ### C6: unknown constant -/

/-- C6 (unknown constant rejection): when a line matches the directive regex,
its value regex compiles and matches the code prefix (with any number of
capture groups) and its constant is not a key of the registry,
`maybeUpdateLine` returns the unknown-constant error; and `maybeUpdateFile`
writes nothing for a file in which such a line is scanned. -/
theorem unknown_constant_rejected (ssot : SSOT) (re : Regexp)
    (commentChars line whole code constant regex : Str) (rest : List Str)
    (vre : Regexp) (vms : List Str)
    (hdir : re.findStringSubmatch line = some (whole :: code :: constant :: regex :: rest))
    (hcomp : Regexp.compile regex = .ok vre)
    (hval : vre.findStringSubmatch code = some vms)
    (hconst : ssot.Constants.lookup constant = none) :
    maybeUpdateLine ssot (some re) commentChars line =
      .ret (trimRight line trimSet) (some (.constantNotFound constant line)) ∧
    ∀ (fp content : Str) (writeErr : Option IOError),
      ssot.LineMatchMap.lookup (filepathExt fp) = some (some re) →
      commentPrefixMap.lookup (filepathExt fp) = some commentChars →
      line ∈ (scanLines content).1 →
      (maybeUpdateFile ssot fp (.ok content) writeErr).result.written = none := by
  have hline : maybeUpdateLine ssot (some re) commentChars line =
      .ret (trimRight line trimSet) (some (.constantNotFound constant line)) := by
    simp [maybeUpdateLine, hdir, hcomp, hval, hconst]
  refine ⟨hline, fun fp content writeErr hre hm hmem => ?_⟩
  cases hw : (maybeUpdateFile ssot fp (.ok content) writeErr).result.written with
  | none => rfl
  | some w =>
    obtain ⟨re', cc', h1, h2, h3, -⟩ := written_some ssot fp content writeErr w hw
    rw [hre] at h1
    rw [hm] at h2
    cases h1
    cases h2
    obtain ⟨y, hy⟩ := (updateLines_done ssot _ _ _ _ _ h3).1 line hmem
    rw [hline] at hy
    simp at hy

/-- Witness of C6 with a value regex that has no capture group. -/
theorem unknown_constant_rejected_witness :
    maybeUpdateLine (registry [("k".toList, "2".toList)]) (some goLineRegex) "//".toList
        "x := 1 //ssot[zz]: \\d".toList =
      .ret (trimRight "x := 1 //ssot[zz]: \\d".toList trimSet)
        (some (.constantNotFound "zz".toList "x := 1 //ssot[zz]: \\d".toList)) ∧
    (maybeUpdateFile (registry [("k".toList, "2".toList)]) "m.go".toList
      (.ok "package m\nx := 1 //ssot[zz]: \\d\n".toList) none).result.written = none :=
  have h := unknown_constant_rejected (registry [("k".toList, "2".toList)]) goLineRegex
    "//".toList "x := 1 //ssot[zz]: \\d".toList "x := 1 //ssot[zz]: \\d".toList
    "x := 1 ".toList "zz".toList "\\d".toList []
    ((Regexp.compile "\\d".toList).toOption.getD ⟨[], .emp, 0⟩) ["1".toList]
    (by decide!) (by decide!) (by decide!) (by decide!)
  ⟨h.1, h.2 "m.go".toList "package m\nx := 1 //ssot[zz]: \\d\n".toList none
    (by decide!) (by decide!) (by decide!)⟩

/-! ### C7: the first line error aborts the file -/

/-- C7 (file-level atomicity): when the scanning loop of `maybeUpdateFile`
reaches a line on which `maybeUpdateLine` returns an error, the lines before
it having been rewritten without error, `maybeUpdateFile` returns the error
that wraps this line's error, writes nothing, and has handed to
`maybeUpdateLine` that line and the lines before it only. -/
theorem first_line_error_aborts_file (ssot : SSOT) (fp content : Str)
    (writeErr : Option IOError) (re : Option Regexp) (commentChars : Str)
    (pre : List Str) (l : Str) (post : List Str) (line : Str) (e : LineError)
    (hscreen : regexSSOTFileMatch.matchString content = true)
    (hre : ssot.LineMatchMap.lookup (filepathExt fp) = some re)
    (hmark : commentPrefixMap.lookup (filepathExt fp) = some commentChars)
    (hlines : (scanLines content).1 = pre ++ l :: post)
    (hpre : ∀ x ∈ pre, ∃ y, maybeUpdateLine ssot re commentChars x = .ret y none)
    (hl : maybeUpdateLine ssot re commentChars l = .ret line (some e)) :
    maybeUpdateFile ssot fp (.ok content) writeErr =
      ⟨.ret (some (.updateLine line e)) none, pre ++ [l]⟩ := by
  have hloop := updateLines_failed ssot re commentChars pre l post line e hpre hl []
  simp [maybeUpdateFile, hscreen, hre, hmark, hlines, hloop]

/-- Witness of C7: the second of three lines names an unknown constant. -/
theorem first_line_error_aborts_file_witness :
    maybeUpdateFile (registry [("k".toList, "2".toList)]) "m.go".toList
        (.ok "package m\nx := 1 //ssot[zz]: (\\d)\ny := 1 //ssot[k]: (\\d)\n".toList) none =
      ⟨.ret (some (.updateLine "x := 1 //ssot[zz]: (\\d)".toList
          (.constantNotFound "zz".toList "x := 1 //ssot[zz]: (\\d)".toList))) none,
        ["package m".toList] ++ ["x := 1 //ssot[zz]: (\\d)".toList]⟩ :=
  first_line_error_aborts_file (registry [("k".toList, "2".toList)]) "m.go".toList
    "package m\nx := 1 //ssot[zz]: (\\d)\ny := 1 //ssot[k]: (\\d)\n".toList none
    (some goLineRegex) "//".toList ["package m".toList] "x := 1 //ssot[zz]: (\\d)".toList
    ["y := 1 //ssot[k]: (\\d)".toList] "x := 1 //ssot[zz]: (\\d)".toList
    (.constantNotFound "zz".toList "x := 1 //ssot[zz]: (\\d)".toList)
    (by decide!) (by decide!) (by decide!) (by decide!)
    (by
      intro x hx
      rw [List.mem_singleton.mp hx]
      exact ⟨"package m".toList, by decide!⟩)
    (by decide!)

/-! ### C8: no-op skip -/

/-- C8 (no-op skip): when every scanned line of a file has been rewritten
without error and scanning ended without error, a buffer equal to the content
gives no write and no error; whatever is written is the buffer, which then
differs from the content and is not blank; and a buffer that differs from the
content and is not blank is written. -/
theorem no_op_skip (ssot : SSOT) (fp content : Str) (writeErr : Option IOError)
    (re : Option Regexp) (commentChars updated : Str)
    (hscreen : regexSSOTFileMatch.matchString content = true)
    (hre : ssot.LineMatchMap.lookup (filepathExt fp) = some re)
    (hmark : commentPrefixMap.lookup (filepathExt fp) = some commentChars)
    (hloop : (updateLines ssot re commentChars (scanLines content).1 []).1 = .done updated)
    (hscan : (scanLines content).2 = false) :
    (updated = content →
      (maybeUpdateFile ssot fp (.ok content) writeErr).result = .ret none none) ∧
    (∀ w, (maybeUpdateFile ssot fp (.ok content) writeErr).result.written = some w →
      w = updated ∧ updated ≠ content ∧ updated.all isSpace = false) ∧
    (updated ≠ content → updated.all isSpace = false →
      (maybeUpdateFile ssot fp (.ok content) writeErr).result.written = some updated) := by
  have hres : (maybeUpdateFile ssot fp (.ok content) writeErr).result =
      finish fp content updated false writeErr := by
    simp [maybeUpdateFile, hscreen, hre, hmark, hloop, hscan]
  rw [hres]
  refine ⟨?_, ?_, ?_⟩
  · intro h
    subst h
    unfold finish
    by_cases hb : updated.all isSpace = true
    · simp [hb]
    · simp [hb]
  · intro w hw
    obtain ⟨h1, -, h3, h4⟩ := finish_written _ _ _ _ _ _ hw
    exact ⟨h1, fun h => h4 h.symm, h3⟩
  · intro hne hb
    have hne' : (content == updated) = false := by
      simpa using fun h : content = updated => hne h.symm
    unfold finish
    cases writeErr <;> simp [hb, hne', FileResult.written]

/-- Witness of C8 at a file that is already in sync with the registry. -/
theorem no_op_skip_witness :
    ("package m\nx = \"2\" //ssot[k]: \"(\\d)\"\n".toList =
        "package m\nx = \"2\" //ssot[k]: \"(\\d)\"\n".toList →
      (maybeUpdateFile (registry [("k".toList, "2".toList)]) "m.go".toList
        (.ok "package m\nx = \"2\" //ssot[k]: \"(\\d)\"\n".toList) none).result =
        .ret none none) ∧
    (∀ w, (maybeUpdateFile (registry [("k".toList, "2".toList)]) "m.go".toList
        (.ok "package m\nx = \"2\" //ssot[k]: \"(\\d)\"\n".toList) none).result.written =
        some w →
      w = "package m\nx = \"2\" //ssot[k]: \"(\\d)\"\n".toList ∧
      "package m\nx = \"2\" //ssot[k]: \"(\\d)\"\n".toList ≠
        "package m\nx = \"2\" //ssot[k]: \"(\\d)\"\n".toList ∧
      "package m\nx = \"2\" //ssot[k]: \"(\\d)\"\n".toList.all isSpace = false) ∧
    ("package m\nx = \"2\" //ssot[k]: \"(\\d)\"\n".toList ≠
        "package m\nx = \"2\" //ssot[k]: \"(\\d)\"\n".toList →
      "package m\nx = \"2\" //ssot[k]: \"(\\d)\"\n".toList.all isSpace = false →
      (maybeUpdateFile (registry [("k".toList, "2".toList)]) "m.go".toList
        (.ok "package m\nx = \"2\" //ssot[k]: \"(\\d)\"\n".toList) none).result.written =
        some "package m\nx = \"2\" //ssot[k]: \"(\\d)\"\n".toList) :=
  no_op_skip (registry [("k".toList, "2".toList)]) "m.go".toList
    "package m\nx = \"2\" //ssot[k]: \"(\\d)\"\n".toList none (some goLineRegex) "//".toList
    "package m\nx = \"2\" //ssot[k]: \"(\\d)\"\n".toList
    (by decide!) (by decide!) (by decide!) (by decide!) (by decide!)

/-! ### C9: unsupported extension -/

/-- C9 (unsupported extension) fails as stated: `notes.txt` has an extension
without entry in the table, and for the content `hello` the error returned is
the no-directives-found error of the screener, which runs first. -/
theorem unsupported_extension_counterexample :
    commentPrefixMap.lookup (filepathExt "notes.txt".toList) = none ∧
    maybeUpdateFile (registry []) "notes.txt".toList (.ok "hello\n".toList) none =
      ⟨.ret (some (.noSSOTComments "notes.txt".toList)) none, []⟩ ∧
    (FileError.noSSOTComments "notes.txt".toList).isUnsupportedExtension = false := by
  decide!

/-- C9 (unsupported extension), amended: for a path whose extension has no
entry in the comment-marker table, `maybeUpdateFile` hands no line to
`maybeUpdateLine` and writes nothing, whatever the content; when the content
passes the presence screener, the error returned is an unsupported-extension
error. -/
theorem unsupported_extension (ssot : SSOT) (fp : Str) (read : Except IOError Str)
    (writeErr : Option IOError)
    (hext : commentPrefixMap.lookup (filepathExt fp) = none) :
    (maybeUpdateFile ssot fp read writeErr).processed = [] ∧
    (maybeUpdateFile ssot fp read writeErr).result.written = none ∧
    ∀ content, read = .ok content → regexSSOTFileMatch.matchString content = true →
      ∃ e, (maybeUpdateFile ssot fp read writeErr).result = .ret (some e) none ∧
        e.isUnsupportedExtension = true := by
  cases read with
  | error e =>
    refine ⟨by simp [maybeUpdateFile], by simp [maybeUpdateFile, FileResult.written], ?_⟩
    intro content h
    cases h
  | ok content =>
    by_cases hs : regexSSOTFileMatch.matchString content = true
    · cases hre : ssot.LineMatchMap.lookup (filepathExt fp) with
      | none =>
        refine ⟨by simp [maybeUpdateFile, hs, hre],
          by simp [maybeUpdateFile, hs, hre, FileResult.written], ?_⟩
        intro c _ _
        exact ⟨.lineMatchRegexNotFound (filepathExt fp),
          by simp [maybeUpdateFile, hs, hre], rfl⟩
      | some re =>
        refine ⟨by simp [maybeUpdateFile, hs, hre, hext],
          by simp [maybeUpdateFile, hs, hre, hext, FileResult.written], ?_⟩
        intro c _ _
        exact ⟨.commentPrefixNotFound (filepathExt fp),
          by simp [maybeUpdateFile, hs, hre, hext], rfl⟩
    · have hs' : regexSSOTFileMatch.matchString content = false := by simpa using hs
      refine ⟨by simp [maybeUpdateFile, hs'], by simp [maybeUpdateFile, hs', FileResult.written], ?_⟩
      intro c hc hm
      cases hc
      rw [hs'] at hm
      cases hm

/-- Witness of C9 at a `.txt` file that holds a directive. -/
theorem unsupported_extension_witness :
    (maybeUpdateFile (registry []) "notes.txt".toList
      (.ok "x //ssot[k]: (x)\n".toList) none).processed = [] ∧
    (maybeUpdateFile (registry []) "notes.txt".toList
      (.ok "x //ssot[k]: (x)\n".toList) none).result.written = none ∧
    ∀ content, Except.ok "x //ssot[k]: (x)\n".toList = (.ok content : Except IOError Str) →
      regexSSOTFileMatch.matchString content = true →
      ∃ e, (maybeUpdateFile (registry []) "notes.txt".toList
        (.ok "x //ssot[k]: (x)\n".toList) none).result = .ret (some e) none ∧
        e.isUnsupportedExtension = true :=
  unsupported_extension (registry []) "notes.txt".toList (.ok "x //ssot[k]: (x)\n".toList) none
    (by decide!)

/-! ### C10: a file without directive -/

/-- C10 (no-directive file rejection): for a content in which the pattern
`ssot\[([^]]+)\]: .+` has no match, `maybeUpdateFile` returns the
no-directives-found error, hands no line to `maybeUpdateLine` and writes
nothing. -/
theorem no_directive_file_rejected (ssot : SSOT) (fp content : Str)
    (writeErr : Option IOError)
    (h : regexSSOTFileMatch.matchString content = false) :
    maybeUpdateFile ssot fp (.ok content) writeErr =
      ⟨.ret (some (.noSSOTComments fp)) none, []⟩ := by
  simp [maybeUpdateFile, h]

/-- Witness of C10 at a `.go` file without directive. -/
theorem no_directive_file_rejected_witness :
    maybeUpdateFile (registry []) "m.go".toList (.ok "package m\nx := 1\n".toList) none =
      ⟨.ret (some (.noSSOTComments "m.go".toList)) none, []⟩ :=
  no_directive_file_rejected (registry []) "m.go".toList "package m\nx := 1\n".toList none
    (by decide!)

/-! ### The replacement loop runs to its end -/

namespace Regexp

theorem orElse_eq_some {α : Type} (a : Option α) (b : Unit → Option α) (x : α)
    (h : a.orElse b = some x) : a = some x ∨ b () = some x := by
  cases a with
  | none => exact Or.inr (by simpa [Option.orElse] using h)
  | some y => exact Or.inl (by simpa [Option.orElse] using h)

/-- The loop of a star ends a match at or after the position where it starts. -/
theorem loopStar_mono (g : Bool) (body : Cont → Cont)
    (hbody : ∀ k : Cont, (∀ prev i rest caps j c, k prev i rest caps = some (j, c) → i ≤ j) →
      ∀ prev i rest caps j c, body k prev i rest caps = some (j, c) → i ≤ j)
    (k : Cont) (hk : ∀ prev i rest caps j c, k prev i rest caps = some (j, c) → i ≤ j)
    (fuel : Nat) :
    ∀ prev i rest caps j c, loopStar g body k fuel prev i rest caps = some (j, c) → i ≤ j := by
  induction fuel with
  | zero => exact hk
  | succ n ih =>
    intro prev i rest caps j c h
    have hkk : ∀ prev' i' rest' caps' j' c',
        (if i < i' then loopStar g body k n prev' i' rest' caps' else none) = some (j', c') →
        i' ≤ j' := by
      intro prev' i' rest' caps' j' c' h'
      by_cases hlt : i < i'
      · rw [if_pos hlt] at h'
        exact ih _ _ _ _ _ _ h'
      · rw [if_neg hlt] at h'
        cases h'
    have hb := hbody (fun prev' i' rest' caps' =>
      if i < i' then loopStar g body k n prev' i' rest' caps' else none) hkk prev i rest caps j c
    unfold loopStar at h
    cases g
    · simp only [Bool.false_eq_true, if_false] at h
      rcases orElse_eq_some _ _ _ h with h1 | h1
      · exact hk _ _ _ _ _ _ h1
      · exact hb h1
    · simp only [if_true] at h
      rcases orElse_eq_some _ _ _ h with h1 | h1
      · exact hb h1
      · exact hk _ _ _ _ _ _ h1

/-- The matcher ends a match at or after the position where it starts. -/
theorem run_mono (r : Re) : ∀ k : Cont,
    (∀ prev i rest caps j c, k prev i rest caps = some (j, c) → i ≤ j) →
    ∀ prev i rest caps j c, run r k prev i rest caps = some (j, c) → i ≤ j := by
  have hstep : ∀ (p : Char → Bool) (k : Cont),
      (∀ prev i rest caps j c, k prev i rest caps = some (j, c) → i ≤ j) →
      ∀ prev i rest caps j c, stepChar p k prev i rest caps = some (j, c) → i ≤ j := by
    intro p k hk prev i rest caps j c h
    cases rest with
    | nil => simp [stepChar] at h
    | cons d t =>
      by_cases hp : p d = true
      · simp only [stepChar, hp, if_true] at h
        have := hk _ _ _ _ _ _ h
        omega
      · simp [stepChar, hp] at h
  induction r with
  | emp => intro k hk; exact hk
  | lit c => intro k hk; exact hstep _ k hk
  | cls neg items => intro k hk; exact hstep _ k hk
  | dot => intro k hk; exact hstep _ k hk
  | bot =>
    intro k hk prev i rest caps j c h
    simp only [run] at h
    split at h
    · exact hk _ _ _ _ _ _ h
    · cases h
  | eot =>
    intro k hk prev i rest caps j c h
    simp only [run] at h
    split at h
    · exact hk _ _ _ _ _ _ h
    · cases h
  | wordB neg =>
    intro k hk prev i rest caps j c h
    simp only [run] at h
    split at h
    · exact hk _ _ _ _ _ _ h
    · cases h
  | cap n r ih =>
    intro k hk prev i rest caps j c h
    simp only [run] at h
    exact ih _ (fun prev' i' rest' caps' j' c' h' => hk _ _ _ _ _ _ h') _ _ _ _ _ _ h
  | cat a b iha ihb =>
    intro k hk prev i rest caps j c h
    simp only [run] at h
    exact iha _ (ihb k hk) _ _ _ _ _ _ h
  | alt a b iha ihb =>
    intro k hk prev i rest caps j c h
    simp only [run] at h
    rcases orElse_eq_some _ _ _ h with h1 | h1
    · exact iha k hk _ _ _ _ _ _ h1
    · exact ihb k hk _ _ _ _ _ _ h1
  | star g r ih =>
    intro k hk prev i rest caps j c h
    simp only [run] at h
    exact loopStar_mono g (run r) ih k hk _ _ _ _ _ _ _ h
  | plus g r ih =>
    intro k hk prev i rest caps j c h
    simp only [run] at h
    exact ih _ (fun prev' i' rest' caps' j' c' h' =>
      loopStar_mono g (run r) ih k hk _ _ _ _ _ _ _ h') _ _ _ _ _ _ h
  | opt g r ih =>
    intro k hk prev i rest caps j c h
    simp only [run] at h
    cases g
    · simp only [Bool.false_eq_true, if_false] at h
      rcases orElse_eq_some _ _ _ h with h1 | h1
      · exact hk _ _ _ _ _ _ h1
      · exact ih k hk _ _ _ _ _ _ h1
    · simp only [if_true] at h
      rcases orElse_eq_some _ _ _ h with h1 | h1
      · exact ih k hk _ _ _ _ _ _ h1
      · exact hk _ _ _ _ _ _ h1

/-- A match found by the search starts at or after the search position and
ends at or after its start. -/
theorem searchAt_bounds (r : Re) (rest : Str) : ∀ (prev : Option Char) (i a b : Nat) (caps : Caps),
    searchAt r prev i rest = some (a, b, caps) → i ≤ a ∧ a ≤ b := by
  have hacc : ∀ prev i rest caps j c, accept prev i rest caps = some (j, c) → i ≤ j := by
    intro prev i rest caps j c h
    simp only [accept, Option.some.injEq, Prod.mk.injEq] at h
    omega
  induction rest with
  | nil =>
    intro prev i a b caps h
    unfold searchAt at h
    cases hr : run r accept prev i [] [] with
    | none => rw [hr] at h; cases h
    | some x =>
      obtain ⟨j, c⟩ := x
      rw [hr] at h
      simp only [Option.some.injEq, Prod.mk.injEq] at h
      have := run_mono r accept hacc _ _ _ _ _ _ hr
      omega
  | cons d t ih =>
    intro prev i a b caps h
    unfold searchAt at h
    cases hr : run r accept prev i (d :: t) [] with
    | none =>
      rw [hr] at h
      have := ih _ _ _ _ _ h
      omega
    | some x =>
      obtain ⟨j, c⟩ := x
      rw [hr] at h
      simp only [Option.some.injEq, Prod.mk.injEq] at h
      have := run_mono r accept hacc _ _ _ _ _ _ hr
      omega

/-- The first index pair of a search result is the whole match, which lies at
or after the search position. -/
theorem exec_bounds (re : Regexp) (s : Str) (pos : Nat) (m : List (Option (Nat × Nat)))
    (h : exec re s pos = some m) :
    ∃ a b, m.head? = some (some (a, b)) ∧ pos ≤ a ∧ a ≤ b := by
  unfold exec at h
  cases hs : searchAt re.re (seek s pos none).1 pos (seek s pos none).2 with
  | none => rw [hs] at h; cases h
  | some x =>
    obtain ⟨a, b, caps⟩ := x
    rw [hs] at h
    simp only [Option.some.injEq] at h
    subst h
    exact ⟨a, b, rfl, searchAt_bounds _ _ _ _ _ _ _ hs⟩

/-- The replacement loop does not depend on its fuel, once the fuel covers the
positions left to search. -/
theorem replaceLoop_fuel (re : Regexp) (src repl : Str) :
    ∀ (fuel fuel' searchPos lastMatchEnd : Nat),
      src.length + 2 ≤ fuel + searchPos → src.length + 2 ≤ fuel' + searchPos →
      replaceLoop re src repl fuel searchPos lastMatchEnd =
        replaceLoop re src repl fuel' searchPos lastMatchEnd := by
  intro fuel
  induction fuel with
  | zero =>
    intro fuel' sp lme h1 h2
    cases fuel' with
    | zero => rfl
    | succ n =>
      have : src.length < sp := by omega
      simp [replaceLoop, this]
  | succ n ih =>
    intro fuel' sp lme h1 h2
    cases fuel' with
    | zero =>
      have : src.length < sp := by omega
      simp [replaceLoop, this]
    | succ n' =>
      unfold replaceLoop
      by_cases hlt : src.length < sp
      · simp [hlt]
      · simp only [hlt, if_false]
        cases he : exec re src sp with
        | none => rfl
        | some m =>
          obtain ⟨a, b, hm, hab, hbb⟩ := exec_bounds re src sp m he
          simp only [hm]
          congr 1
          apply ih
          · split_ifs <;> omega
          · split_ifs <;> omega

/-- `ReplaceAllString` is the replacement loop run to its end: more fuel gives
the same text. -/
theorem replaceAllString_fuel (re : Regexp) (src repl : Str) (fuel : Nat)
    (h : src.length + 2 ≤ fuel) :
    replaceLoop re src repl fuel 0 0 = replaceAllString re src repl := by
  unfold replaceAllString
  exact replaceLoop_fuel re src repl _ _ 0 0 (by omega) (by omega)

end Regexp

/-! ### Further lemmas on the program -/

/-- Skipping the characters of a text just replaced. -/
theorem replaceOcc_skip (old new : Str) (w t : Str) :
    replaceOcc old new w.length (w ++ t) = replaceOcc old new 0 t := by
  induction w with
  | nil => rfl
  | cons c w ih =>
    cases t with
    | nil =>
      simp only [List.length_cons, List.cons_append, replaceOcc]
      simpa using ih
    | cons d t => simpa [replaceOcc] using ih

/-- A text in which `old` does not occur is left as it is. -/
theorem replaceOcc_no_occurrence (old new : Str) (t : Str)
    (h : ∀ j, j ≤ t.length → old.isPrefixOf (t.drop j) = false) :
    replaceOcc old new 0 t = t := by
  induction t with
  | nil => rfl
  | cons c t ih =>
    have h0 : old.isPrefixOf (c :: t) = false := h 0 (Nat.zero_le _)
    have ht : ∀ j, j ≤ t.length → old.isPrefixOf (t.drop j) = false := by
      intro j hj
      have := h (j + 1) (by simp only [List.length_cons]; omega)
      simpa using this
    simp [replaceOcc, h0, ih ht]

/-- When `g` is not empty and occurs in `pre ++ g ++ post` at the place after
`pre` only, replacing `g` swaps that one span. -/
theorem replaceOcc_single (g v : Str) (hg : g ≠ []) (pre post : Str)
    (h : ∀ k, k ≤ (pre ++ g ++ post).length →
      g.isPrefixOf ((pre ++ g ++ post).drop k) = true → k = pre.length) :
    replaceOcc g v 0 (pre ++ g ++ post) = pre ++ v ++ post := by
  induction pre with
  | nil =>
    obtain ⟨c, g', rfl⟩ := List.exists_cons_of_ne_nil hg
    have hpre : (c :: g').isPrefixOf ((c :: g') ++ post) = true := by
      rw [List.isPrefixOf_iff_prefix]
      exact List.prefix_append _ _
    have hpost : ∀ j, j ≤ post.length → (c :: g').isPrefixOf (post.drop j) = false := by
      intro j hj
      by_contra hne
      have ht : (c :: g').isPrefixOf (post.drop j) = true := by simpa using hne
      have := h ((c :: g').length + j)
        (by simp only [List.nil_append, List.length_append]; omega)
        (by
          simp only [List.nil_append]
          rw [List.drop_append]
          exact ht)
      simp at this
    have e : [] ++ (c :: g') ++ post = c :: (g' ++ post) := by simp
    rw [e]
    simp only [List.cons_append] at hpre
    simp only [replaceOcc]
    rw [if_pos hpre]
    have hlen : (c :: g').length - 1 = g'.length := by simp
    rw [hlen, replaceOcc_skip, replaceOcc_no_occurrence _ _ _ hpost]
    simp
  | cons c pre ih =>
    have h0 : g.isPrefixOf (c :: pre ++ g ++ post) = false := by
      by_contra hne
      have ht : g.isPrefixOf (c :: pre ++ g ++ post) = true := by simpa using hne
      have := h 0 (Nat.zero_le _) (by simpa using ht)
      simp at this
    have h' : ∀ k, k ≤ (pre ++ g ++ post).length →
        g.isPrefixOf ((pre ++ g ++ post).drop k) = true → k = pre.length := by
      intro k hk hp
      have := h (k + 1) (by simp only [List.cons_append, List.length_cons] at hk ⊢; omega)
        (by simpa using hp)
      simpa using this
    have e : c :: pre ++ g ++ post = c :: (pre ++ g ++ post) := by simp
    rw [e] at h0 ⊢
    simp only [replaceOcc, h0, Bool.false_eq_true, if_false]
    rw [ih h']
    simp

/-- The successful path of `maybeUpdateLine`, step by step. -/
theorem maybeUpdateLine_rewrite (ssot : SSOT) (re : Regexp)
    (commentChars line whole code constant regex : Str) (rest : List Str)
    (vre : Regexp) (m0 m1 : Str) (vrest : List Str) (value : Str) (dre : Regexp)
    (hdir : re.findStringSubmatch line = some (whole :: code :: constant :: regex :: rest))
    (hcomp : Regexp.compile regex = .ok vre)
    (hval : vre.findStringSubmatch code = some (m0 :: m1 :: vrest))
    (hconst : ssot.Constants.lookup constant = some value)
    (hdec : decorateLineRegex regex = .ok dre) :
    maybeUpdateLine ssot (some re) commentChars line =
      .ret (trimRight
        (dre.replaceAllString code ("$1".toList ++ stringsReplace m0 m1 value ++ "$3".toList) ++
          commentChars ++ "ssot[".toList ++ constant ++ "]: ".toList ++ regex) trimSet) none := by
  simp [maybeUpdateLine, hdir, hcomp, hval, hconst, hdec]

/-- Every line `maybeUpdateLine` returns has been trimmed on the right. -/
theorem maybeUpdateLine_trimmed (ssot : SSOT) (re : Option Regexp)
    (commentChars line out : Str) (err : Option LineError)
    (h : maybeUpdateLine ssot re commentChars line = .ret out err) :
    ∃ s, out = trimRight s trimSet := by
  unfold maybeUpdateLine at h
  split at h
  · cases h
  · split at h
    · cases h; exact ⟨_, rfl⟩
    · split at h
      · split at h
        · cases h; exact ⟨_, rfl⟩
        · split at h
          · cases h; exact ⟨_, rfl⟩
          · split at h
            · cases h; exact ⟨_, rfl⟩
            · split at h
              · split at h
                · cases h; exact ⟨_, rfl⟩
                · cases h; exact ⟨_, rfl⟩
              · cases h
      · cases h

/-- A text trimmed on the right ends in neither a space nor a tab. -/
theorem trimRight_last (s : Str) :
    (trimRight s trimSet).getLast? ≠ some ' ' ∧ (trimRight s trimSet).getLast? ≠ some '\t' := by
  have key : ∀ c, (trimRight s trimSet).getLast? = some c → trimSet.contains c = false := by
    unfold trimRight
    intro c hc
    have hne : s.rdropWhile (fun c => trimSet.contains c) ≠ [] := by
      intro h0
      rw [h0] at hc
      simp at hc
    have h1 := List.rdropWhile_last_not (fun c => trimSet.contains c) s hne
    rw [List.getLast?_eq_getLast _ hne] at hc
    cases hc
    simpa using h1
  constructor
  · intro h
    have := key _ h
    revert this
    decide
  · intro h
    have := key _ h
    revert this
    decide

/-! ### C11: multi-file aggregation -/

/-- The slice `errs` holds the errors the calls returned, in the order of the
calls. -/
theorem scanFiles_errs (ssot : SSOT) (env : Env) (files : List Str) (n : Nat) :
    (scanFiles ssot env n files).errs =
      (scanFiles ssot env n files).calls.filterMap fun c => c.2.err := by
  induction files generalizing n with
  | nil => simp [scanFiles]
  | cons f fs ih =>
    unfold scanFiles
    cases h : (maybeUpdateFile ssot f (env n f).1 (env n f).2).result with
    | panic => simp [FileResult.err]
    | ret e w =>
      cases e with
      | none => simp [FileResult.err, ih]
      | some e => simp [FileResult.err, ih]

/-- When no call panics, the loop calls `maybeUpdateFile` on every file, in
list order, whatever the earlier calls returned. -/
theorem scanFiles_calls (ssot : SSOT) (env : Env) (files : List Str) (n : Nat)
    (h : (scanFiles ssot env n files).panicked = false) :
    (scanFiles ssot env n files).calls.map Prod.fst = files := by
  induction files generalizing n with
  | nil => simp [scanFiles]
  | cons f fs ih =>
    unfold scanFiles at h ⊢
    cases hr : (maybeUpdateFile ssot f (env n f).1 (env n f).2).result with
    | panic => rw [hr] at h; simp [ScanRun.panicked] at h
    | ret e w =>
      rw [hr] at h
      cases e with
      | none =>
        simp only [ScanRun.panicked, List.any_cons, Bool.or_eq_false_iff] at h
        simp [ih (n + 1) h.2]
      | some e =>
        simp only [ScanRun.panicked, List.any_cons, Bool.or_eq_false_iff] at h
        simp [ih (n + 1) h.2]

/-- When `Initialize` succeeds and no call panics, `main` exits with status 3
exactly when an error has been collected, and returns otherwise. -/
theorem main_exit_status (ssot0 ssot : SSOT) (env : Env)
    (hinit : Initialize ssot0 = (ssot, none))
    (h : (scanFiles ssot env 0 ssot.Files).panicked = false) :
    (main (.ok ssot0) env).2 = scanFiles ssot env 0 ssot.Files ∧
    ((main (.ok ssot0) env).1 = .exit 3 ↔ (scanFiles ssot env 0 ssot.Files).errs ≠ []) ∧
    ((main (.ok ssot0) env).1 = .returned ↔ (scanFiles ssot env 0 ssot.Files).errs = []) := by
  unfold main
  simp only [hinit, h, Bool.false_eq_true, if_false]
  cases herr : (scanFiles ssot env 0 ssot.Files).errs with
  | nil => simp
  | cons e es => simp

/-- The witness of C11: of three files, the second fails with a value-regex
no-match; all three are handed to `maybeUpdateFile`, one error is collected and
the run exits with status 3. -/
theorem aggregation_three_files :
    main (.ok ⟨["a.go".toList, "b.go".toList, "c.go".toList], [("k".toList, "2".toList)], []⟩)
        (envOf [("a.go".toList, "x = \"1\" //ssot[k]: \"(\\d)\"\n".toList),
          ("b.go".toList, "y = \"z\" //ssot[k]: \"(\\d)\"\n".toList),
          ("c.go".toList, "z = \"2\" //ssot[k]: \"(\\d)\"\n".toList)]) =
      (.exit 3,
        ⟨[("a.go".toList, .ret none (some "x = \"2\" //ssot[k]: \"(\\d)\"\n".toList)),
          ("b.go".toList, .ret (some (.updateLine "y = \"z\" //ssot[k]: \"(\\d)\"".toList
            (.notMatching "\"(\\d)\"".toList "y = \"z\" ".toList))) none),
          ("c.go".toList, .ret none none)],
        [.updateLine "y = \"z\" //ssot[k]: \"(\\d)\"".toList
            (.notMatching "\"(\\d)\"".toList "y = \"z\" ".toList)]⟩) := by
  decide!

/-- C11 (multi-file aggregation), evaluated at a failing input: the files are
`a.go` and `b.go`, and `a.go` holds the directive line `x := 1 //ssot[k]: \d`,
whose value regex has no capture group. The call on `a.go` panics, the process
ends there: `maybeUpdateFile` is never called on `b.go` and no error list is
reported. -/
theorem aggregation_stops_at_panic :
    main (.ok ⟨["a.go".toList, "b.go".toList], [("k".toList, "2".toList)], []⟩)
        (envOf [("a.go".toList, "x := 1 //ssot[k]: \\d\n".toList),
          ("b.go".toList, "y = \"1\" //ssot[k]: \"(\\d)\"\n".toList)]) =
      (.panic, ⟨[("a.go".toList, .panic)], []⟩) := by
  decide!

/-! ### C12: the replacement text and the substitution template -/

/-- C12 (literal insertion), evaluated at failing inputs. In each line the
value regex is unanchored and its match has text before it and after it.
With `ver` mapped to `2`, the code prefix `tag := v1 ` (match `v1`, replacement
text `v2`) becomes a single space instead of `tag := v2 `; the same happens for
a replacement text that begins with a digit (`42`) or an underscore (`_42`);
and with `p` mapped to `a$3b` the code prefix `p := "x" ` becomes `p := "a" `
instead of `p := "a$3b" `. -/
theorem replacement_text_read_as_template :
    (Regexp.compile "v(\\d+)".toList).toOption.bind
        (fun r => r.findStringSubmatch "tag := v1 ".toList) =
      some ["v1".toList, "1".toList] ∧
    maybeUpdateLine (registry [("ver".toList, "2".toList)]) (some goLineRegex) "//".toList
        "tag := v1 //ssot[ver]: v(\\d+)".toList =
      .ret " //ssot[ver]: v(\\d+)".toList none ∧
    maybeUpdateLine (registry [("n".toList, "42".toList)]) (some goLineRegex) "//".toList
        "n := 7 //ssot[n]: (\\d+)".toList =
      .ret " //ssot[n]: (\\d+)".toList none ∧
    maybeUpdateLine (registry [("n".toList, "42".toList)]) (some goLineRegex) "//".toList
        "n := _7 //ssot[n]: _(\\d+)".toList =
      .ret " //ssot[n]: _(\\d+)".toList none ∧
    maybeUpdateLine (registry [("p".toList, "a$3b".toList)]) (some goLineRegex) "//".toList
        "p := \"x\" //ssot[p]: \"([^\"]*)\"".toList =
      .ret "p := \"a\" //ssot[p]: \"([^\"]*)\"".toList none := by
  decide!

/-! ### C13: the replacement text -/

/-- C13 (replacement-text computation) fails as stated. On the code prefix
`v := "1.1" ` the value regex `"(\d)\.\d"` matches `"1.1"` with group `1`, the
first digit; with the registry value `2` the replacement text is `"2.2"` and
not `"2.1"`, and the line is rewritten to `v := "2.2" `. With an empty group
(`"(\d*)x"` on `"x"`) and the value `7` the replacement text is `7"7x7"7`. -/
theorem replacement_text_counterexample :
    (Regexp.compile "\"(\\d)\\.\\d\"".toList).toOption.bind
        (fun r => r.findStringSubmatch "v := \"1.1\" ".toList) =
      some ["\"1.1\"".toList, "1".toList] ∧
    stringsReplace "\"1.1\"".toList "1".toList "2".toList = "\"2.2\"".toList ∧
    "\"2.2\"".toList ≠ "\"".toList ++ "2".toList ++ ".1\"".toList ∧
    maybeUpdateLine (registry [("k".toList, "2".toList)]) (some goLineRegex) "//".toList
        "v := \"1.1\" //ssot[k]: \"(\\d)\\.\\d\"".toList =
      .ret "v := \"2.2\" //ssot[k]: \"(\\d)\\.\\d\"".toList none ∧
    (Regexp.compile "\"(\\d*)x\"".toList).toOption.bind
        (fun r => r.findStringSubmatch "v := \"x\" ".toList) =
      some ["\"x\"".toList, [] ] ∧
    stringsReplace "\"x\"".toList [] "7".toList = "7\"7x7\"7".toList := by
  decide!

/-- C13 (replacement-text computation), amended: for a successful match of
the value regex with matched text `m` and first group text `g`, the replacement
text computed by `maybeUpdateLine` (the text it puts between `$1` and `$3` of
the substitution template) is `strings.Replace(m, g, registryValue, -1)`; and
when `g` is not empty and occurs in `m = pre ++ g ++ post` at the place after
`pre` only, that text is `pre ++ registryValue ++ post`. -/
theorem replacement_text_single_occurrence (ssot : SSOT) (re : Regexp)
    (commentChars line whole code constant regex : Str) (rest : List Str)
    (vre : Regexp) (m g : Str) (vrest : List Str) (value : Str) (dre : Regexp)
    (hdir : re.findStringSubmatch line = some (whole :: code :: constant :: regex :: rest))
    (hcomp : Regexp.compile regex = .ok vre)
    (hval : vre.findStringSubmatch code = some (m :: g :: vrest))
    (hconst : ssot.Constants.lookup constant = some value)
    (hdec : decorateLineRegex regex = .ok dre) :
    maybeUpdateLine ssot (some re) commentChars line =
      .ret (trimRight
        (dre.replaceAllString code ("$1".toList ++ stringsReplace m g value ++ "$3".toList) ++
          commentChars ++ "ssot[".toList ++ constant ++ "]: ".toList ++ regex) trimSet) none ∧
    ∀ pre post, m = pre ++ g ++ post → g ≠ [] →
      (∀ k, k ≤ (pre ++ g ++ post).length →
        g.isPrefixOf ((pre ++ g ++ post).drop k) = true → k = pre.length) →
      stringsReplace m g value = pre ++ value ++ post := by
  refine ⟨maybeUpdateLine_rewrite ssot re commentChars line whole code constant regex rest vre
    m g vrest value dre hdir hcomp hval hconst hdec, ?_⟩
  intro pre post hm hg honce
  subst hm
  unfold stringsReplace
  have : g.isEmpty = false := by
    cases g with
    | nil => exact absurd rfl hg
    | cons c t => rfl
  rw [this]
  exact replaceOcc_single g value hg pre post honce

/-- Witness of C13 at the code prefix `v := "1.2" `, value regex `"(\d)\.\d"`
and registry value `7`: the matched text is `"1.2"`, the group `1`. -/
theorem replacement_text_single_occurrence_witness :
    maybeUpdateLine (registry [("k".toList, "7".toList)]) (some goLineRegex) "//".toList
        "v := \"1.2\" //ssot[k]: \"(\\d)\\.\\d\"".toList =
      .ret (trimRight
        (((decorateLineRegex "\"(\\d)\\.\\d\"".toList).toOption.getD ⟨[], .emp, 0⟩).replaceAllString
            "v := \"1.2\" ".toList
            ("$1".toList ++ stringsReplace "\"1.2\"".toList "1".toList "7".toList ++
              "$3".toList) ++
          "//".toList ++ "ssot[".toList ++ "k".toList ++ "]: ".toList ++
          "\"(\\d)\\.\\d\"".toList) trimSet) none ∧
    stringsReplace "\"1.2\"".toList "1".toList "7".toList =
      "\"".toList ++ "7".toList ++ ".2\"".toList :=
  have h := replacement_text_single_occurrence (registry [("k".toList, "7".toList)])
    goLineRegex "//".toList "v := \"1.2\" //ssot[k]: \"(\\d)\\.\\d\"".toList
    "v := \"1.2\" //ssot[k]: \"(\\d)\\.\\d\"".toList "v := \"1.2\" ".toList "k".toList
    "\"(\\d)\\.\\d\"".toList []
    ((Regexp.compile "\"(\\d)\\.\\d\"".toList).toOption.getD ⟨[], .emp, 0⟩)
    "\"1.2\"".toList "1".toList [] "7".toList
    ((decorateLineRegex "\"(\\d)\\.\\d\"".toList).toOption.getD ⟨[], .emp, 0⟩)
    (by decide!) (by decide!) (by decide!) (by decide!) (by decide!)
  ⟨h.1, h.2 "\"".toList ".2\"".toList (by decide!) (by decide!) (by decide!)⟩

/-! ### C14: regex decoration -/

/-- C14 (regex decoration), evaluated at failing inputs. The value regex
`^v(\d)` has one capture group and starts with `^`; the decorated pattern is
`^()^(.+?)$`, with two capture groups and without the input regex. The value
regex `v(\d)$` ends with `$`; the decorated pattern is `^()$`, with one capture
group and without the input regex. For `v(\d)`, without anchor, the decorated
pattern is `^(.+?)v(\d)(.+?)$`, with three capture groups. -/
theorem decoration_of_anchored_regex :
    (Regexp.compile "^v(\\d)".toList).toOption.map (fun r => r.numSubexp) = some 1 ∧
    decorateSource "^v(\\d)".toList = "^()^(.+?)$".toList ∧
    (decorateLineRegex "^v(\\d)".toList).toOption.map (fun r => (r.expr, r.numSubexp)) =
      some ("^()^(.+?)$".toList, 2) ∧
    (Regexp.compile "v(\\d)$".toList).toOption.map (fun r => r.numSubexp) = some 1 ∧
    (decorateLineRegex "v(\\d)$".toList).toOption.map (fun r => (r.expr, r.numSubexp)) =
      some ("^()$".toList, 1) ∧
    (decorateLineRegex "v(\\d)".toList).toOption.map (fun r => (r.expr, r.numSubexp)) =
      some ("^(.+?)v(\\d)(.+?)$".toList, 3) := by
  decide!

/-! ### C15: the shape of the returned line -/

/-- C15 (output line shape): a line that matches the directive regex with the
groups `code`, `constant`, `regex` and is rewritten without error is returned
as the rewritten code prefix (the result of `ReplaceAllString` on `code`)
followed by the marker, `ssot[`, the constant name, `]: ` and the value regex,
with trailing spaces and tabs removed; and every line `maybeUpdateLine`
returns, with or without error, ends in neither a space nor a tab. -/
theorem output_line_shape (ssot : SSOT) (re : Regexp)
    (commentChars line out whole code constant regex : Str) (rest : List Str)
    (hdir : re.findStringSubmatch line = some (whole :: code :: constant :: regex :: rest))
    (hout : maybeUpdateLine ssot (some re) commentChars line = .ret out none) :
    (∃ vre m0 m1 vrest value dre,
      Regexp.compile regex = .ok vre ∧
      vre.findStringSubmatch code = some (m0 :: m1 :: vrest) ∧
      ssot.Constants.lookup constant = some value ∧
      decorateLineRegex regex = .ok dre ∧
      out = trimRight
        (dre.replaceAllString code ("$1".toList ++ stringsReplace m0 m1 value ++ "$3".toList) ++
          commentChars ++ "ssot[".toList ++ constant ++ "]: ".toList ++ regex) trimSet) ∧
    ∀ (re' : Option Regexp) (line' out' : Str) (err : Option LineError),
      maybeUpdateLine ssot re' commentChars line' = .ret out' err →
      out'.getLast? ≠ some ' ' ∧ out'.getLast? ≠ some '\t' := by
  constructor
  · simp only [maybeUpdateLine, hdir] at hout
    simp only [List.getElem?_cons_succ, List.getElem?_cons_zero] at hout
    cases hc : Regexp.compile regex with
    | error e => rw [hc] at hout; simp at hout
    | ok vre =>
      rw [hc] at hout
      simp only at hout
      cases hv : vre.findStringSubmatch code with
      | none => rw [hv] at hout; simp at hout
      | some vms =>
        rw [hv] at hout
        simp only at hout
        cases hk : ssot.Constants.lookup constant with
        | none => rw [hk] at hout; simp at hout
        | some value =>
          rw [hk] at hout
          simp only at hout
          cases vms with
          | nil => simp at hout
          | cons m0 t =>
            cases t with
            | nil => simp at hout
            | cons m1 vrest =>
              simp only [List.getElem?_cons_succ, List.getElem?_cons_zero] at hout
              cases hd : decorateLineRegex regex with
              | error e => rw [hd] at hout; simp at hout
              | ok dre =>
                rw [hd] at hout
                simp only [LineResult.ret.injEq, and_true] at hout
                exact ⟨vre, m0, m1, vrest, value, dre, rfl, hv, rfl, rfl, hout.symm⟩
  · intro re' line' out' err h
    obtain ⟨s, hs⟩ := maybeUpdateLine_trimmed ssot re' commentChars line' out' err h
    rw [hs]
    exact trimRight_last s

/-- Witness of C15 at a line written with spaces around the directive. -/
theorem output_line_shape_witness :
    (∃ vre m0 m1 vrest value dre,
      Regexp.compile "\"(\\d)\"".toList = .ok vre ∧
      vre.findStringSubmatch "x = \"1\" ".toList = some (m0 :: m1 :: vrest) ∧
      (registry [("k".toList, "2".toList)]).Constants.lookup "k".toList = some value ∧
      decorateLineRegex "\"(\\d)\"".toList = .ok dre ∧
      "x = \"2\" //ssot[k]: \"(\\d)\"".toList = trimRight
        (dre.replaceAllString "x = \"1\" ".toList
            ("$1".toList ++ stringsReplace m0 m1 value ++ "$3".toList) ++
          "//".toList ++ "ssot[".toList ++ "k".toList ++ "]: ".toList ++ "\"(\\d)\"".toList)
        trimSet) ∧
    ∀ (re' : Option Regexp) (line' out' : Str) (err : Option LineError),
      maybeUpdateLine (registry [("k".toList, "2".toList)]) re' "//".toList line' =
        .ret out' err →
      out'.getLast? ≠ some ' ' ∧ out'.getLast? ≠ some '\t' :=
  output_line_shape (registry [("k".toList, "2".toList)]) goLineRegex "//".toList
    "x = \"1\" // ssot[k]:  \"(\\d)\"".toList "x = \"2\" //ssot[k]: \"(\\d)\"".toList
    "x = \"1\" // ssot[k]:  \"(\\d)\"".toList "x = \"1\" ".toList "k".toList "\"(\\d)\"".toList []
    (by decide!) (by decide!)

/-! ### C16: the screener and the directive regex -/

/-- C16 (screener consistency), evaluated at a failing input: the only line of
the `.go` file, `x = "1" //ssot[k]:"(\d)"`, matches the directive regex (and
`maybeUpdateLine` rewrites it without error), but the screener pattern, which
asks for one space after `]:`, has no match in the content, and
`maybeUpdateFile` rejects the file with the no-directives-found error. -/
theorem screener_rejects_directive_line :
    goLineRegex.findStringSubmatch "x = \"1\" //ssot[k]:\"(\\d)\"".toList =
      some ["x = \"1\" //ssot[k]:\"(\\d)\"".toList, "x = \"1\" ".toList, "k".toList,
        "\"(\\d)\"".toList] ∧
    maybeUpdateLine (registry [("k".toList, "2".toList)]) (some goLineRegex) "//".toList
        "x = \"1\" //ssot[k]:\"(\\d)\"".toList =
      .ret "x = \"2\" //ssot[k]: \"(\\d)\"".toList none ∧
    (scanLines "x = \"1\" //ssot[k]:\"(\\d)\"\n".toList).1 =
      ["x = \"1\" //ssot[k]:\"(\\d)\"".toList] ∧
    regexSSOTFileMatch.matchString "x = \"1\" //ssot[k]:\"(\\d)\"\n".toList = false ∧
    maybeUpdateFile (registry [("k".toList, "2".toList)]) "m.go".toList
        (.ok "x = \"1\" //ssot[k]:\"(\\d)\"\n".toList) none =
      ⟨.ret (some (.noSSOTComments "m.go".toList)) none, []⟩ := by
  decide!

/-! ### C17: caching of the directive regex -/

/-- A call of `lineMatchRegex` that returns no error leaves the registry, and
so `LineMatchMap`, as it was. -/
theorem lineMatchRegex_success_keeps_state (ssot : SSOT) (ext : Str)
    (h : (lineMatchRegex ssot ext).2.2 = none) : (lineMatchRegex ssot ext).1 = ssot := by
  unfold lineMatchRegex at h ⊢
  cases h1 : ssot.LineMatchMap.lookup ext with
  | some re => rfl
  | none =>
    rw [h1] at h
    cases h2 : commentPrefixMap.lookup ext with
    | none => rfl
    | some marker =>
      rw [h2] at h
      simp only at h ⊢
      cases h3 : Regexp.compile (lineMatchSource marker) with
      | error e => rw [h3] at h; simp at h
      | ok re => rfl

/-- C17 (directive-regex caching), evaluated at a failing input: on a registry
whose `LineMatchMap` is empty, `lineMatchRegex(".go")` returns the pattern and
no error, and `LineMatchMap[".go"]` is still absent afterwards; a second call
finds no cached pattern and builds the pattern again. (After `Initialize`,
which stores the pattern itself, the map holds it.) -/
theorem lineMatchRegex_does_not_cache :
    (lineMatchRegex ⟨[], [], []⟩ ".go".toList).2 = (some goLineRegex, none) ∧
    (lineMatchRegex ⟨[], [], []⟩ ".go".toList).1.LineMatchMap.lookup ".go".toList = none ∧
    (lineMatchRegex (lineMatchRegex ⟨[], [], []⟩ ".go".toList).1 ".go".toList).2 =
      (some goLineRegex, none) ∧
    (lineMatchRegex (lineMatchRegex ⟨[], [], []⟩ ".go".toList).1 ".go".toList).1.LineMatchMap =
      [] ∧
    (registry []).LineMatchMap.lookup ".go".toList = some (some goLineRegex) := by
  decide!

/-! ### C3: idempotence -/

/-- Replacing a non-empty text by itself changes nothing. -/
theorem replaceOcc_self (g : Str) (hg : g ≠ []) :
    ∀ (s : Str) (k : Nat), replaceOcc g g k s = s.drop k := by
  intro s
  induction s with
  | nil => intro k; cases k <;> simp [replaceOcc]
  | cons c t ih =>
    intro k
    cases k with
    | succ k => simp [replaceOcc, ih]
    | zero =>
      simp only [replaceOcc, List.drop_zero]
      split_ifs with h
      · rw [ih]
        have hp : g <+: c :: t := List.isPrefixOf_iff_prefix.mp h
        obtain ⟨r, hr⟩ := hp
        cases g with
        | nil => exact absurd rfl hg
        | cons a g' =>
          simp only [List.cons_append, List.cons.injEq] at hr
          obtain ⟨rfl, rfl⟩ := hr
          simp
      · rw [ih]; simp

/-- The replacement text of a match whose first group already is the registry
value is the matched text: `strings.Replace(s, g, g, -1) = s`. -/
theorem stringsReplace_self (s g : Str) : stringsReplace s g g = s := by
  unfold stringsReplace
  split_ifs with h
  · have : g = [] := by simpa using h
    subst this
    simp
  · rw [replaceOcc_self g (by simpa using h)]; simp

/-- A loop over lines that are all returned without error ends with the buffer
extended by the returned lines, and has handed every line to
`maybeUpdateLine`. -/
theorem updateLines_returned (ssot : SSOT) (re : Option Regexp) (commentChars : Str)
    (lines outs : List Str)
    (h : List.Forall₂ (fun l o => maybeUpdateLine ssot re commentChars l = .ret o none)
      lines outs) (buf : Str) :
    updateLines ssot re commentChars lines buf = (.done (buf ++ joinLines outs), lines) := by
  induction h generalizing buf with
  | nil => simp [updateLines, joinLines]
  | cons hx _ ih =>
    simp only [updateLines, hx, ih, joinLines, List.flatMap_cons, List.append_assoc]

theorem utf8Len_reverse (s : Str) : utf8Len s.reverse = utf8Len s := by
  simp [utf8Len, List.sum_reverse]

/-- The scanner on a text that begins with a piece without newline, followed by
a newline. -/
theorem scanAux_line (o rest : Str) (ho : '\n' ∉ o) (acc : Str) :
    scanAux (o ++ '\n' :: rest) acc =
      if maxScanTokenSize ≤ utf8Len (o.reverse ++ acc) then ([], true)
      else (dropCR (o.reverse ++ acc).reverse :: (scanAux rest []).1, (scanAux rest []).2) := by
  induction o generalizing acc with
  | nil => simp [scanAux]
  | cons c o ih =>
    have hc : c ≠ '\n' := fun h => ho (by simp [h])
    have ho' : '\n' ∉ o := fun h => ho (List.mem_cons_of_mem _ h)
    have e : (c :: o) ++ '\n' :: rest = c :: (o ++ '\n' :: rest) := rfl
    rw [e]
    simp only [scanAux, beq_iff_eq, hc, if_false]
    rw [ih ho']
    simp

/-- The scanner reads back the lines a buffer was written from, when no line
holds a newline, ends in a carriage return or exceeds the scanner's buffer. -/
theorem scanLines_joinLines (outs : List Str)
    (h : ∀ o ∈ outs, '\n' ∉ o ∧ o.getLast? ≠ some '\r' ∧ utf8Len o < maxScanTokenSize) :
    scanLines (joinLines outs) = (outs, false) := by
  unfold scanLines
  induction outs with
  | nil => simp [joinLines, scanAux]
  | cons o outs ih =>
    obtain ⟨h1, h2, h3⟩ := h o (List.mem_cons_self _ _)
    have ih' := ih fun x hx => h x (List.mem_cons_of_mem _ hx)
    have e : joinLines (o :: outs) = o ++ '\n' :: joinLines outs := by
      simp [joinLines]
    rw [e, scanAux_line o _ h1, ih']
    have hlen : ¬ maxScanTokenSize ≤ utf8Len (o.reverse ++ []) := by
      rw [List.append_nil, utf8Len_reverse]; omega
    rw [if_neg hlen]
    simp [dropCR, h2]

/-- A buffer equal to the content is not written. -/
theorem finish_same (fp updated : Str) (writeErr : Option IOError) :
    finish fp updated updated false writeErr = .ret none none := by
  unfold finish
  simp

/-- C3 (idempotence) fails as stated, in four ways.
(1) A registry value that the value regex does not match: with `k` mapped to
`a`, the line `x = "1" //ssot[k]: "(\d)"` is rewritten to
`x = "a" //ssot[k]: "(\d)"`, on which a second call fails (the value regex no
longer matches the code); and the file holding that line is rewritten by a
first run, while a second run on the written content returns an error.
(2) A value regex that is not read back: in `a:1b:2 c//ssot[k]: :(\d) ` the
value regex ends in a space, which the final trim removes; with `k` mapped to
`7` the first call returns `a:1b:7 c//ssot[k]: :(\d)`, and the second call, now
with the value regex `:(\d)`, returns `a:7b:7 c//ssot[k]: :(\d)`.
(3) A line that ends in a carriage return: the content `a\r\r\n` followed by a
directive line is written with the first line `a\r`, and a second run on the
written content writes again, with the first line `a`.
(4) An output that the screener rejects: the content `#ssot[k]:  ` is written as
`#ssot[k]:`, on which a second run returns the error of a file without
directive. -/
theorem idempotence_counterexample :
    maybeUpdateLine (registry [("k".toList, "a".toList)]) (some goLineRegex) "//".toList
        "x = \"1\" //ssot[k]: \"(\\d)\"".toList =
      .ret "x = \"a\" //ssot[k]: \"(\\d)\"".toList none ∧
    maybeUpdateLine (registry [("k".toList, "a".toList)]) (some goLineRegex) "//".toList
        "x = \"a\" //ssot[k]: \"(\\d)\"".toList =
      .ret "x = \"a\" //ssot[k]: \"(\\d)\"".toList
        (some (.notMatching "\"(\\d)\"".toList "x = \"a\" ".toList)) ∧
    (maybeUpdateFile (registry [("k".toList, "a".toList)]) "m.go".toList
        (.ok "x = \"1\" //ssot[k]: \"(\\d)\"\n".toList) none).result =
      .ret none (some "x = \"a\" //ssot[k]: \"(\\d)\"\n".toList) ∧
    (maybeUpdateFile (registry [("k".toList, "a".toList)]) "m.go".toList
        (.ok "x = \"a\" //ssot[k]: \"(\\d)\"\n".toList) none).result =
      .ret (some (.updateLine "x = \"a\" //ssot[k]: \"(\\d)\"".toList
        (.notMatching "\"(\\d)\"".toList "x = \"a\" ".toList))) none ∧
    maybeUpdateLine (registry [("k".toList, "7".toList)]) (some goLineRegex) "//".toList
        "a:1b:2 c//ssot[k]: :(\\d) ".toList =
      .ret "a:1b:7 c//ssot[k]: :(\\d)".toList none ∧
    maybeUpdateLine (registry [("k".toList, "7".toList)]) (some goLineRegex) "//".toList
        "a:1b:7 c//ssot[k]: :(\\d)".toList =
      .ret "a:7b:7 c//ssot[k]: :(\\d)".toList none ∧
    (maybeUpdateFile (registry [("k".toList, "2".toList)]) "m.go".toList
        (.ok "a\r\r\nx = \"1\" //ssot[k]: \"(\\d)\"\n".toList) none).result =
      .ret none (some "a\r\nx = \"2\" //ssot[k]: \"(\\d)\"\n".toList) ∧
    (maybeUpdateFile (registry [("k".toList, "2".toList)]) "m.go".toList
        (.ok "a\r\nx = \"2\" //ssot[k]: \"(\\d)\"\n".toList) none).result =
      .ret none (some "a\nx = \"2\" //ssot[k]: \"(\\d)\"\n".toList) ∧
    (maybeUpdateFile (registry []) "m.go".toList (.ok "#ssot[k]:  \n".toList) none).result =
      .ret none (some "#ssot[k]:\n".toList) ∧
    (maybeUpdateFile (registry []) "m.go".toList (.ok "#ssot[k]:\n".toList) none).result =
      .ret (some (.noSSOTComments "m.go".toList)) none := by
  decide!

/-- C3 (idempotence), amended. Line level, for the directive regex of a
supported extension: a line that the regex does not match is returned as a line
`l1` without error, and a second call on `l1` returns `l1` without error. A
directive line that is rewritten without error is returned as `l1`, the
rewritten code prefix `newCode` followed by the regenerated directive, and a
second call on `l1` returns `l1` without error whenever the directive regex
reads `l1` back as `newCode`, the same constant and the same value regex, the
value regex captures the registry value in `newCode`, and the substitution puts
the matched text back in its place (it leaves `newCode` as it is).
File level: a run whose scanned lines are all returned without error ends as
`finish` decides on the buffer `O` of the returned lines; and when `O` passes
the screener and every returned line holds no newline, does not end in a
carriage return, fits the scanner's buffer and is returned as it is, without
error, by a second call, a run on `O` hands exactly the returned lines to
`maybeUpdateLine`, returns no error and writes nothing. -/
theorem idempotence_in_sync (ssot : SSOT) (ext : Str) (re : Regexp) (commentChars : Str)
    (hre : directiveRegex ext = some re) :
    (∀ line : Str, re.findStringSubmatch line = none →
      maybeUpdateLine ssot (some re) commentChars line = .ret (trimRight line trimSet) none ∧
      maybeUpdateLine ssot (some re) commentChars (trimRight line trimSet) =
        .ret (trimRight line trimSet) none) ∧
    (∀ (line whole code constant regex : Str) (rest : List Str) (vre : Regexp) (m0 m1 : Str)
        (vrest : List Str) (value : Str) (dre : Regexp) (newCode l1 : Str),
      re.findStringSubmatch line = some (whole :: code :: constant :: regex :: rest) →
      Regexp.compile regex = .ok vre →
      vre.findStringSubmatch code = some (m0 :: m1 :: vrest) →
      ssot.Constants.lookup constant = some value →
      decorateLineRegex regex = .ok dre →
      newCode = dre.replaceAllString code
        ("$1".toList ++ stringsReplace m0 m1 value ++ "$3".toList) →
      l1 = trimRight
        (newCode ++ commentChars ++ "ssot[".toList ++ constant ++ "]: ".toList ++ regex)
        trimSet →
      maybeUpdateLine ssot (some re) commentChars line = .ret l1 none ∧
      ∀ (whole1 : Str) (rest1 : List Str) (m : Str) (vrest1 : List Str),
        re.findStringSubmatch l1 = some (whole1 :: newCode :: constant :: regex :: rest1) →
        vre.findStringSubmatch newCode = some (m :: value :: vrest1) →
        dre.replaceAllString newCode ("$1".toList ++ m ++ "$3".toList) = newCode →
        maybeUpdateLine ssot (some re) commentChars l1 = .ret l1 none) ∧
    (∀ (fp content : Str) (writeErr : Option IOError) (fre : Option Regexp) (marker : Str)
        (outs : List Str),
      regexSSOTFileMatch.matchString content = true →
      ssot.LineMatchMap.lookup (filepathExt fp) = some fre →
      commentPrefixMap.lookup (filepathExt fp) = some marker →
      (scanLines content).2 = false →
      List.Forall₂ (fun l o => maybeUpdateLine ssot fre marker l = .ret o none)
        (scanLines content).1 outs →
      (maybeUpdateFile ssot fp (.ok content) writeErr).result =
        finish fp content (joinLines outs) false writeErr ∧
      (regexSSOTFileMatch.matchString (joinLines outs) = true →
        (∀ o ∈ outs, '\n' ∉ o ∧ o.getLast? ≠ some '\r' ∧ utf8Len o < maxScanTokenSize) →
        (∀ o ∈ outs, maybeUpdateLine ssot fre marker o = .ret o none) →
        ∀ writeErr2 : Option IOError,
          maybeUpdateFile ssot fp (.ok (joinLines outs)) writeErr2 =
            ⟨.ret none none, outs⟩)) := by
  refine ⟨?_, ?_, ?_⟩
  · intro line h
    exact pass_through_idempotent ssot ext re commentChars line hre h
  · intro line whole code constant regex rest vre m0 m1 vrest value dre newCode l1
      hdir hcomp hval hconst hdec hnew hl1
    refine ⟨?_, ?_⟩
    · rw [hl1, hnew]
      exact maybeUpdateLine_rewrite ssot re commentChars line whole code constant regex rest
        vre m0 m1 vrest value dre hdir hcomp hval hconst hdec
    · intro whole1 rest1 m vrest1 hback hsync hiso
      have h2 := maybeUpdateLine_rewrite ssot re commentChars l1 whole1 newCode constant regex
        rest1 vre m value vrest1 value dre hback hcomp hsync hconst hdec
      rw [stringsReplace_self, hiso, ← hl1] at h2
      exact h2
  · intro fp content writeErr fre marker outs hs hlk hmk htl hall
    have hloop := updateLines_returned ssot fre marker _ _ hall []
    refine ⟨?_, ?_⟩
    · simp [maybeUpdateFile, hs, hlk, hmk, hloop, htl]
    · intro hs2 hscan hstable werr
      have hsc := scanLines_joinLines outs hscan
      have hall2 : List.Forall₂ (fun l o => maybeUpdateLine ssot fre marker l = .ret o none)
          outs outs := by
        clear hsc hscan hloop hall hs2
        induction outs with
        | nil => exact .nil
        | cons o os ih =>
          exact .cons (hstable o (List.mem_cons_self _ _))
            (ih fun x hx => hstable x (List.mem_cons_of_mem _ hx))
      have hloop2 := updateLines_returned ssot fre marker _ _ hall2 []
      simp [maybeUpdateFile, hs2, hlk, hmk, hsc, hloop2, finish_same]

/-- Witness of C3 for `.go` files with `k` mapped to `2`: the directive line
`x = "1" //ssot[k]: "(\d)"` is rewritten to `x = "2" //ssot[k]: "(\d)"`, which a
second call returns as it is; and the file made of `package m`, a space and a
tab, and that line is written as `O`, on which a second run returns no error and
writes nothing. -/
theorem idempotence_in_sync_witness :
    directiveRegex ".go".toList = some goLineRegex ∧
    (maybeUpdateLine (registry [("k".toList, "2".toList)]) (some goLineRegex) "//".toList
        "x = \"1\" //ssot[k]: \"(\\d)\"".toList =
      .ret "x = \"2\" //ssot[k]: \"(\\d)\"".toList none ∧
    maybeUpdateLine (registry [("k".toList, "2".toList)]) (some goLineRegex) "//".toList
        "x = \"2\" //ssot[k]: \"(\\d)\"".toList =
      .ret "x = \"2\" //ssot[k]: \"(\\d)\"".toList none) ∧
    ((maybeUpdateFile (registry [("k".toList, "2".toList)]) "m.go".toList
        (.ok "package m \t\nx = \"1\" //ssot[k]: \"(\\d)\"\n".toList) none).result =
      .ret none (some "package m\nx = \"2\" //ssot[k]: \"(\\d)\"\n".toList) ∧
    maybeUpdateFile (registry [("k".toList, "2".toList)]) "m.go".toList
        (.ok (joinLines ["package m".toList, "x = \"2\" //ssot[k]: \"(\\d)\"".toList])) none =
      ⟨.ret none none, ["package m".toList, "x = \"2\" //ssot[k]: \"(\\d)\"".toList]⟩) := by
  have h := idempotence_in_sync (registry [("k".toList, "2".toList)]) ".go".toList
    goLineRegex "//".toList (by decide!)
  refine ⟨by decide!, ?_, ?_⟩
  · have h2 := h.2.1 "x = \"1\" //ssot[k]: \"(\\d)\"".toList
      "x = \"1\" //ssot[k]: \"(\\d)\"".toList "x = \"1\" ".toList "k".toList
      "\"(\\d)\"".toList []
      ((Regexp.compile "\"(\\d)\"".toList).toOption.getD ⟨[], .emp, 0⟩)
      "\"1\"".toList "1".toList [] "2".toList
      ((decorateLineRegex "\"(\\d)\"".toList).toOption.getD ⟨[], .emp, 0⟩)
      "x = \"2\" ".toList "x = \"2\" //ssot[k]: \"(\\d)\"".toList
      (by decide!) (by decide!) (by decide!) (by decide!) (by decide!) (by decide!)
      (by decide!)
    exact ⟨h2.1, h2.2 "x = \"2\" //ssot[k]: \"(\\d)\"".toList [] "\"2\"".toList []
      (by decide!) (by decide!) (by decide!)⟩
  · have hs : (scanLines "package m \t\nx = \"1\" //ssot[k]: \"(\\d)\"\n".toList).1 =
        ["package m \t".toList, "x = \"1\" //ssot[k]: \"(\\d)\"".toList] := by decide!
    have h3 := h.2.2 "m.go".toList "package m \t\nx = \"1\" //ssot[k]: \"(\\d)\"\n".toList
      none (some goLineRegex) "//".toList
      ["package m".toList, "x = \"2\" //ssot[k]: \"(\\d)\"".toList]
      (by decide!) (by decide!) (by decide!) (by decide!)
      (by rw [hs]; exact .cons (by decide!) (.cons (by decide!) .nil))
    refine ⟨h3.1.trans (by decide!), ?_⟩
    exact h3.2 (by decide!) (by decide!) (by decide!) none

end SsotTool
